import Mathlib

/-!
Shallow embedding of the classgen record/vtable extraction core
(src/src/classgen/RecordImpl.cpp, src/src/classgen/Record.cpp,
src/include/classgen/Record.h) and proofs about the claims of its
specification.
-/

namespace Classgen

/-! ## ComplexType (include/classgen/ComplexType.h as used by RecordImpl.cpp) -/

inductive ComplexType where
  | typeName (name : String) (is_const : Bool) (is_volatile : Bool)
  | pointer (pointee : ComplexType)
  | array (element : ComplexType) (size : Nat)
  | function (params : List ComplexType) (ret : ComplexType)
  | memberPointer (classType : ComplexType) (pointee : ComplexType) (reprStr : String)
  | atomic (value : ComplexType)

/-!
## Input model for TranslateToComplexType

A canonicalized clang QualType, as inspected by TranslateToComplexType.
The constructors correspond, in the priority order of the source's if-chain,
to: getAsConstantArrayType, getAs<MemberPointerType>, getAs<PointerType>,
getAs<ReferenceType>, getAs<FunctionProtoType>, getAs<AtomicType>, and the
fallthrough leaf (everything else, including record/enum references), which
carries the printed name together with its const/volatile qualifiers.
-/

inductive CType where
  | constArray (element : CType) (size : Nat)
  | memberPtr (cls : CType) (pointee : CType) (reprStr : String)
  | ptr (pointee : CType)
  | ref (pointee : CType)
  | functionProto (params : List CType) (ret : CType)
  | atomic (value : CType)
  | leaf (name : String) (is_const : Bool) (is_volatile : Bool)

mutual

/-- Embedding of `TranslateToComplexType` (RecordImpl.cpp). The match arms
follow the source's if-chain in order; references produce the same
constructor as raw pointers. -/
def TranslateToComplexType : CType → ComplexType
  | .constArray e n => .array (TranslateToComplexType e) n
  | .memberPtr c p r => .memberPointer (TranslateToComplexType c) (TranslateToComplexType p) r
  | .ptr p => .pointer (TranslateToComplexType p)
  | .ref p => .pointer (TranslateToComplexType p)
  | .functionProto ps r => .function (translateParamList ps) (TranslateToComplexType r)
  | .atomic v => .atomic (TranslateToComplexType v)
  | .leaf n c v => .typeName n c v

/-- Translation of a function prototype's parameter list, in declaration
order (the `for` loop over `getParamTypes()` in the source). -/
def translateParamList : List CType → List ComplexType
  | [] => []
  | t :: ts => TranslateToComplexType t :: translateParamList ts

end

/-! ## Overloaded operator names (GetCStyleOperatorName, RecordImpl.cpp) -/

/-- clang's `OverloadedOperatorKind` values that can reach the switch in
`GetCStyleOperatorName` (OO_None is represented by `Option.none` on the
method model, mirroring `isOverloadedOperator()`). -/
inductive OverloadedOperator where
  | opNew | opDelete | opArrayNew | opArrayDelete
  | opPlus | opMinus | opStar | opSlash | opPercent | opCaret
  | opAmp | opPipe | opTilde | opExclaim
  | opEqual | opLess | opGreater
  | opPlusEqual | opMinusEqual | opStarEqual | opSlashEqual | opPercentEqual
  | opCaretEqual | opAmpEqual | opPipeEqual
  | opLessLess | opGreaterGreater | opLessLessEqual | opGreaterGreaterEqual
  | opEqualEqual | opExclaimEqual | opLessEqual | opGreaterEqual | opSpaceship
  | opAmpAmp | opPipePipe | opPlusPlus | opMinusMinus
  | opComma | opArrowStar | opArrow | opCall | opSubscript
  | opConditional | opCoawait
deriving DecidableEq

/-- The string returned by the big switch of `GetCStyleOperatorName`,
token for token from the source (including the stray semicolon in the
`OO_Greater` case). -/
def operatorToken : OverloadedOperator → String
  | .opNew => "__op_new"
  | .opDelete => "__op_delete"
  | .opArrayNew => "__op_array_new"
  | .opArrayDelete => "__op_array_delete"
  | .opPlus => "__op_plus"
  | .opMinus => "__op_minus"
  | .opStar => "__op_star"
  | .opSlash => "__op_slash"
  | .opPercent => "__op_percent"
  | .opCaret => "__op_caret"
  | .opAmp => "__op_amp"
  | .opPipe => "__op_pipe"
  | .opTilde => "__op_tilde"
  | .opExclaim => "__op_exclaim"
  | .opEqual => "__op_eq"
  | .opLess => "__op_lt"
  | .opGreater => "__op_gt;"
  | .opPlusEqual => "__op_plus_equal"
  | .opMinusEqual => "__op_minus_equal"
  | .opStarEqual => "__op_star_equal"
  | .opSlashEqual => "__op_slash_equal"
  | .opPercentEqual => "__op_percent_equal"
  | .opCaretEqual => "__op_caret_equal"
  | .opAmpEqual => "__op_amp_equal"
  | .opPipeEqual => "__op_pipe_equal"
  | .opLessLess => "__op_lt_lt"
  | .opGreaterGreater => "__op_gt_gt"
  | .opLessLessEqual => "__op_lt_lt_eq"
  | .opGreaterGreaterEqual => "__op_gt_gt_eq"
  | .opEqualEqual => "__op_eq_eq"
  | .opExclaimEqual => "__op_exclaim_eq"
  | .opLessEqual => "__op_leq"
  | .opGreaterEqual => "__op_geq"
  | .opSpaceship => "__op_spaceship"
  | .opAmpAmp => "__op_amp_amp"
  | .opPipePipe => "__op_pipe_pipe"
  | .opPlusPlus => "__op_plus_plus"
  | .opMinusMinus => "__op_minus_minus"
  | .opComma => "__op_comma"
  | .opArrowStar => "__op_arrow_star"
  | .opArrow => "__op_arrow"
  | .opCall => "__op_call"
  | .opSubscript => "__op_subscript"
  | .opConditional => "__op_conditional"
  | .opCoawait => "__op_coawait"

/-! ## Method declaration model (the data ParseVTable reads off a
CXXMethodDecl through clang accessors) -/

structure FuncDeclModel where
  /-- `func->getName()`; empty for destructors and operators without an
  ordinary spelling. -/
  name : String := ""
  /-- `func->getOverloadedOperator()`; `none` models `OO_None`
  (`isOverloadedOperator()` false). -/
  overloadedOperator : Option OverloadedOperator := none
  /-- `func->isPure()`. -/
  isPure : Bool := false
  /-- `func->isConst()`. -/
  isConst : Bool := false
  /-- `PredefinedExpr::ComputeName(PrettyFunctionNoVirtual, func)`. -/
  prettyName : String := ""
  /-- `func->getType()` (canonicalized view consumed by the flattener). -/
  type : CType := .leaf "" false false

/-- Embedding of `GetCStyleOperatorName` (RecordImpl.cpp): empty string for
non-operators, otherwise the per-operator token. -/
def GetCStyleOperatorName (f : FuncDeclModel) : String :=
  match f.overloadedOperator with
  | none => ""
  | some op => operatorToken op

/-! ## Thunk model (clang::ThunkInfo as read by ParseVTable) -/

/-- clang `ReturnAdjustment`: non-virtual byte offset plus the Itanium
vbase-offset-offset of the virtual part. -/
structure ReturnAdjustment where
  nonVirtual : Int := 0
  vbaseOffsetOffset : Int := 0
deriving DecidableEq

/-- `ReturnAdjustment::isEmpty()`: both parts zero. -/
def ReturnAdjustment.isEmptyAdj (r : ReturnAdjustment) : Bool :=
  r.nonVirtual == 0 && r.vbaseOffsetOffset == 0

/-- clang `ThisAdjustment`: non-virtual byte offset plus the Itanium
vcall-offset-offset of the virtual part. -/
structure ThisAdjustment where
  nonVirtual : Int := 0
  vcallOffsetOffset : Int := 0
deriving DecidableEq

/-- `ThisAdjustment::isEmpty()`: both parts zero. -/
def ThisAdjustment.isEmptyAdj (t : ThisAdjustment) : Bool :=
  t.nonVirtual == 0 && t.vcallOffsetOffset == 0

/-- clang `ThunkInfo` as stored in `VTableLayout::vtable_thunks()`. -/
structure ThunkInfo where
  retAdj : ReturnAdjustment := {}
  thisAdj : ThisAdjustment := {}
deriving DecidableEq

/-- `ThunkInfo::isEmpty()` restricted to the adjustment data the extractor
reads: both adjustments empty. -/
def ThunkInfo.isEmptyThunk (t : ThunkInfo) : Bool :=
  t.retAdj.isEmptyAdj && t.thisAdj.isEmptyAdj

/-- `llvm::lower_bound` over the thunk table: the first entry whose index
is not less than the key (exactly what the binary search returns on the
sorted table clang supplies). -/
def lowerBoundThunk (thunks : List (Nat × ThunkInfo)) (idx : Nat) : Option (Nat × ThunkInfo) :=
  thunks.find? (fun e => !(e.1 < idx))

/-- Embedding of `GetThunkInfo` (RecordImpl.cpp): lower_bound by component
index, then require an exact index match. -/
def GetThunkInfo (thunks : List (Nat × ThunkInfo)) (idx : Nat) : Option ThunkInfo :=
  match lowerBoundThunk thunks idx with
  | none => none
  | some e => if e.1 = idx then some e.2 else none

/-! ## VTable oracle input (clang::VTableLayout) -/

/-- A component of the canonical layout, as produced by clang's
ItaniumVTableBuilder (`clang::VTableComponent`), carrying the data the
extractor reads from it. -/
inductive CK where
  | vcallOffset (offset : Int)
  | vbaseOffset (offset : Int)
  | offsetToTop (offset : Int)
  /-- RTTI component; the string models
  `ctx.getTypeDeclType(component.getRTTIDecl()).getAsString(policy)`. -/
  | rtti (className : String)
  | functionPointer (func : FuncDeclModel)
  | completeDtorPointer (func : FuncDeclModel)
  | deletingDtorPointer (func : FuncDeclModel)
  | unusedFunctionPointer (func : FuncDeclModel)

/-- `clang::VTableLayout` as consumed by ParseVTable: the canonical
component sequence plus the sparse thunk table (sorted by component
index). -/
structure VTableOracle where
  components : List CK := []
  thunks : List (Nat × ThunkInfo) := []

/-! ## VTable output model (include/classgen/Record.h) -/

structure FunctionPointer where
  is_thunk : Bool := false
  is_const : Bool := false
  return_adjustment : Int := 0
  return_adjustment_vbase_offset_offset : Int := 0
  this_adjustment : Int := 0
  this_adjustment_vcall_offset_offset : Int := 0
  reprStr : String := ""
  function_name : String := ""
  type : ComplexType := .typeName "" false false

inductive VTableComponent where
  | vcallOffset (offset : Int)
  | vbaseOffset (offset : Int)
  | offsetToTop (offset : Int)
  | rtti (class_name : String)
  | functionPointer (fp : FunctionPointer)
  | completeDtorPointer (fp : FunctionPointer)
  | deletingDtorPointer (fp : FunctionPointer)

structure VTable where
  components : List VTableComponent := []

/-! ## ParseVTable (RecordImpl.cpp) -/

/-- `fmt::format("\x7b:#x\x7d", v)` for the signed adjustment values. -/
def fmtHex (v : Int) : String :=
  if v < 0 then "-0x" ++ String.mk (Nat.toDigits 16 v.natAbs)
  else "0x" ++ String.mk (Nat.toDigits 16 v.natAbs)

/-- The function-pointer translation of ParseVTable's merged
`CK_FunctionPointer`/`CK_CompleteDtorPointer`/`CK_DeletingDtorPointer`/
`CK_UnusedFunctionPointer` case: name fixup for operators, repr
annotations, thunk lookup and thunk field population. -/
def mkFunctionPointerEntry (L : VTableOracle) (idx : Nat)
    (isCompleteDtor isDeletingDtor : Bool) (f : FuncDeclModel) : FunctionPointer :=
  let name := if f.name == "" && f.overloadedOperator.isSome then GetCStyleOperatorName f
              else f.name
  let repr0 := f.prettyName
  let repr1 := if isCompleteDtor then repr0 ++ " [complete]" else repr0
  let repr2 := if isDeletingDtor then repr1 ++ " [deleting]" else repr1
  let repr3 := if f.isPure then repr2 ++ " [pure]" else repr2
  let thunk := GetThunkInfo L.thunks idx
  let repr4 :=
    match thunk with
    | none => repr3
    | some t =>
      if t.isEmptyThunk then repr3
      else
        let r1 :=
          if !t.retAdj.isEmptyAdj then
            let s0 := repr3 ++ " [return adjustment: " ++ fmtHex t.retAdj.nonVirtual
            let s1 :=
              if t.retAdj.vbaseOffsetOffset != 0 then
                s0 ++ ", vbase offset offset: " ++ fmtHex t.retAdj.vbaseOffsetOffset
              else s0
            s1 ++ "]"
          else repr3
        if !t.thisAdj.isEmptyAdj then
          let s0 := r1 ++ " [this adjustment: " ++ fmtHex t.thisAdj.nonVirtual
          let s1 :=
            if t.thisAdj.vcallOffsetOffset != 0 then
              s0 ++ ", vcall offset offset: " ++ fmtHex t.thisAdj.vcallOffsetOffset
            else s0
          s1 ++ "]"
        else r1
  let entry : FunctionPointer :=
    { is_const := f.isConst, reprStr := repr4, function_name := name,
      type := TranslateToComplexType f.type }
  match thunk with
  | none => entry
  | some t =>
    if t.isEmptyThunk then entry
    else
      let e1 := { entry with is_thunk := true }
      let e2 :=
        if !t.retAdj.isEmptyAdj then
          { e1 with return_adjustment := t.retAdj.nonVirtual,
                    return_adjustment_vbase_offset_offset := t.retAdj.vbaseOffsetOffset }
        else e1
      if !t.thisAdj.isEmptyAdj then
        { e2 with this_adjustment := t.thisAdj.nonVirtual,
                  this_adjustment_vcall_offset_offset := t.thisAdj.vcallOffsetOffset }
      else e2

/-- The per-component switch of ParseVTable: each input component yields
exactly one output component; unused function-pointer slots fold into the
ordinary FunctionPointer kind. -/
def translateComponent (L : VTableOracle) (idx : Nat) : CK → VTableComponent
  | .vcallOffset off => .vcallOffset off
  | .vbaseOffset off => .vbaseOffset off
  | .offsetToTop off => .offsetToTop off
  | .rtti n => .rtti n
  | .functionPointer f => .functionPointer (mkFunctionPointerEntry L idx false false f)
  | .unusedFunctionPointer f => .functionPointer (mkFunctionPointerEntry L idx false false f)
  | .completeDtorPointer f => .completeDtorPointer (mkFunctionPointerEntry L idx true false f)
  | .deletingDtorPointer f => .deletingDtorPointer (mkFunctionPointerEntry L idx false true f)

/-- The `llvm::enumerate` loop of ParseVTable, carrying the running
component index. -/
def parseComponents (L : VTableOracle) (idx : Nat) : List CK → List VTableComponent
  | [] => []
  | c :: rest => translateComponent L idx c :: parseComponents L (idx + 1) rest

/-! ## Record declaration input model -/

/-- The per-record data read by `ShouldInlineEmptyRecord` about a record
declaration (its layout data size and the emptiness-relevant clang
predicates). -/
structure RecordInfo where
  /-- `ctx.getTypeDeclType(D).getAsString(policy)`. -/
  name : String := ""
  /-- `layout.getDataSize().getQuantity()`. -/
  dataSize : Nat := 0
  /-- Whether `dyn_cast<clang::CXXRecordDecl>(D)` succeeds. -/
  isCXX : Bool := true
  /-- `CXXRD->isDynamicClass()`. -/
  isDynamicClass : Bool := false
  /-- Negation of `CXXRD->bases().empty()`. -/
  hasBases : Bool := false
  /-- Negation of `CXXRD->vbases().empty()`. -/
  hasVBases : Bool := false
  /-- `CXXRD->hasDirectFields()`. -/
  hasDirectFields : Bool := false
deriving DecidableEq

/-- The configuration structure (include/classgen/Record.h). -/
structure ParseConfig where
  inline_empty_structs : Bool := false
deriving DecidableEq

/-- Embedding of `ParseContextImpl::ShouldInlineEmptyRecord`
(RecordImpl.cpp): the toggle, the data-size test, and the manual
emptiness test for the non-zero-object-size case. -/
def ShouldInlineEmptyRecord (cfg : ParseConfig) (info : RecordInfo) : Bool :=
  if !cfg.inline_empty_structs then false
  else if info.dataSize == 0 then true
  else if !info.isCXX then true
  else !info.isDynamicClass && !info.hasBases && !info.hasVBases && !info.hasDirectFields

/-- A direct base specifier together with the layout offset the walker
reads for it (`layout.getBaseClassOffset` for non-virtual bases,
`layout.getVBaseClassOffset` for virtual bases). -/
structure BaseSpec where
  isVirtual : Bool := false
  info : RecordInfo := {}
  offset : Nat := 0

/-- A clang `FieldDecl` as read by `AddDataMembers`. -/
structure FieldDeclModel where
  /-- `field_decl->getNameAsString()`. -/
  name : String := ""
  /-- `field_decl->isUnnamedBitfield()`. -/
  isUnnamedBitfield : Bool := false
  /-- `field_decl->isBitField()`. -/
  isBitField : Bool := false
  /-- `field_decl->getBitWidthValue(ctx)`. -/
  bitWidthValue : Nat := 0
  /-- `field_decl->getType()` (canonical view for the flattener). -/
  type : CType := .leaf "" false false
  /-- `field_decl->getType().getCanonicalType().getAsString(policy)`. -/
  typeNameStr : String := ""
  /-- `field_decl->getType()->getAsRecordDecl()`: the referenced record's
  info when the member is of record type. -/
  asRecord : Option RecordInfo := none

/-- clang `TagTypeKind` (the values reaching the tag-kind switch). -/
inductive TagKind where
  | ttkStruct | ttkInterface | ttkClass | ttkUnion | ttkEnum
deriving DecidableEq

/-- The gating data `CanProcess` reads off any TagDecl. -/
structure TagDeclGate where
  /-- Whether `D->getDefinition()` is non-null. -/
  hasDefinition : Bool := true
  /-- `D->isInvalidDecl()`. -/
  isInvalid : Bool := false
  /-- `D->isCompleteDefinition()`. -/
  isCompleteDefinition : Bool := true
  /-- `D->isTemplated()`. -/
  isTemplated : Bool := false
  /-- `ctx.getTypeDeclType(D).getAsString(policy)`. -/
  name : String := ""
deriving DecidableEq

/-- A record declaration (already resolved to its definition) together
with everything `HandleRecordDecl` and the layout walker read about it. -/
structure RecordDeclModel where
  gate : TagDeclGate := {}
  /-- `D->isAnonymousStructOrUnion()`. -/
  isAnonymous : Bool := false
  /-- `D->getTagKind()`. -/
  tagKind : TagKind := .ttkStruct
  /-- `layout.getSize().getQuantity()`. -/
  size : Nat := 0
  /-- `layout.getDataSize().getQuantity()`. -/
  dataSize : Nat := 0
  /-- `layout.getAlignment().getQuantity()`. -/
  alignment : Nat := 0
  /-- Whether `dyn_cast<clang::CXXRecordDecl>(D)` succeeds. -/
  isCXX : Bool := true
  /-- `CXXRD->isDynamicClass()`. -/
  isDynamicClass : Bool := false
  /-- `layout.getPrimaryBase()`, identified by the base record's name
  (each declaration is visited at most once per name). -/
  primaryBase : Option String := none
  /-- `CXXRD->bases()` in declaration order (virtual and non-virtual). -/
  bases : List BaseSpec := []
  /-- `CXXRD->vbases()` with their virtual-base offsets. -/
  vbases : List BaseSpec := []
  /-- `D->fields()` in declaration order (unnamed bitfields included). -/
  fields : List FieldDeclModel := []
  /-- `layout.getFieldOffset(i)` for every field `i` of `fields`, in
  bits. -/
  fieldOffsetsBits : List Nat := []
  /-- The class's `clang::VTableLayout` (meaningful for dynamic classes). -/
  vtableLayout : VTableOracle := {}

/-- The `RecordInfo` view of a record declaration, as
`ShouldInlineEmptyRecord` computes it from the decl and its layout. -/
def RecordDeclModel.toInfo (d : RecordDeclModel) : RecordInfo :=
  { name := d.gate.name, dataSize := d.dataSize, isCXX := d.isCXX,
    isDynamicClass := d.isDynamicClass, hasBases := !d.bases.isEmpty,
    hasVBases := !d.vbases.isEmpty, hasDirectFields := !d.fields.isEmpty }

/-! ## Output model: fields, records, results (include/classgen/Record.h) -/

inductive FieldData where
  | memberVariable (bitfield_width : Nat) (type : ComplexType) (type_name : String) (name : String)
  | base (is_primary : Bool) (is_virtual : Bool) (type_name : String)
  | vtablePointer

structure Field where
  offset : Nat := 0
  data : FieldData := .vtablePointer

inductive RecordKind where
  | recClass | recStruct | recUnion
deriving DecidableEq

structure Record where
  is_anonymous : Bool := false
  kind : RecordKind := .recStruct
  name : String := ""
  size : Nat := 0
  data_size : Nat := 0
  alignment : Nat := 0
  fields : List Field := []
  vtable : Option VTable := none

structure Enum where
  is_scoped : Bool := false
  is_anonymous : Bool := false
  underlying_type_size : Nat := 0
  name : String := ""
  underlying_type_name : String := ""
  enumerators : List (String × String) := []
deriving DecidableEq

structure ParseResult where
  error : String := ""
  enums : List Enum := []
  records : List Record := []

/-- The mutable state of one extraction run: the accumulating result plus
the processed-name set (`llvm::StringSet m_processed`). -/
structure ParseState where
  result : ParseResult := {}
  processed : List String := []

/-! ## Layout walker (AddBases / AddVirtualBases / AddDataMembers /
AddFields, RecordImpl.cpp) -/

/-- Stable insertion of `x` into `acc` keeping elements with keys `≤ key x`
in front: together with `stableSortByKey` this realizes
`llvm::stable_sort` with a `<`-by-key comparator. -/
def insertByKey (key : α → Nat) (x : α) : List α → List α
  | [] => [x]
  | y :: ys => if key x < key y then x :: y :: ys else y :: insertByKey key x ys

/-- `llvm::stable_sort` by an ascending natural key. -/
def stableSortByKey (key : α → Nat) (l : List α) : List α :=
  l.foldl (fun acc x => insertByKey key x acc) []

/-- The vtable-pointer part of `AddBases`: a synthetic VTablePointer field
at the base offset when the class is dynamic and has no primary base. -/
def VPtrFields (base_offset : Nat) (d : RecordDeclModel) : List Field :=
  if !d.isCXX then []
  else if d.isDynamicClass && d.primaryBase.isNone then
    [{ offset := base_offset, data := .vtablePointer }]
  else []

/-- The non-virtual-base part of `AddBases`: collect non-virtual bases,
stable-sort them by base-class offset, skip inlined empty bases, and emit
a Base field for each survivor. -/
def NVBaseFields (cfg : ParseConfig) (base_offset : Nat) (d : RecordDeclModel) : List Field :=
  if !d.isCXX then []
  else
    (stableSortByKey BaseSpec.offset (d.bases.filter (fun b => !b.isVirtual))).filterMap
      (fun b =>
        if ShouldInlineEmptyRecord cfg b.info then none
        else some { offset := base_offset + b.offset,
                    data := .base (d.primaryBase == some b.info.name) false b.info.name })

/-- Embedding of `ParseContextImpl::AddBases` (RecordImpl.cpp). -/
def AddBases (cfg : ParseConfig) (base_offset : Nat) (d : RecordDeclModel) : List Field :=
  VPtrFields base_offset d ++ NVBaseFields cfg base_offset d

/-- Embedding of `ParseContextImpl::AddVirtualBases` (RecordImpl.cpp):
virtual bases stable-sorted by virtual-base offset, inlined empty bases
skipped. -/
def AddVirtualBases (cfg : ParseConfig) (base_offset : Nat) (d : RecordDeclModel) : List Field :=
  if !d.isCXX then []
  else
    (stableSortByKey BaseSpec.offset d.vbases).filterMap
      (fun b =>
        if ShouldInlineEmptyRecord cfg b.info then none
        else some { offset := base_offset + b.offset,
                    data := .base (d.primaryBase == some b.info.name) true b.info.name })

/-- The loop body of `AddDataMembers`: `fieldIdx` is the source's
`field_idx`, which is incremented only for fields that are not unnamed
bitfields (the `continue` for unnamed bitfields happens before the
increment). `ctx.toCharUnitsFromBits` is division by the char width. -/
def dataMemberFields (cfg : ParseConfig) (base_offset : Nat) (d : RecordDeclModel) :
    List FieldDeclModel → Nat → List Field
  | [], _ => []
  | fd :: rest, fieldIdx =>
    if fd.isUnnamedBitfield then dataMemberFields cfg base_offset d rest fieldIdx
    else
      let relOffsetInBits := d.fieldOffsetsBits.getD fieldIdx 0
      let offset := base_offset + relOffsetInBits / 8
      let emitted : List Field :=
        match fd.asRecord with
        | some info =>
          if d.tagKind == .ttkUnion || !ShouldInlineEmptyRecord cfg info then
            [{ offset := offset,
               data := .memberVariable 0 (TranslateToComplexType (.leaf info.name false false))
                 info.name fd.name }]
          else []
        | none =>
          [{ offset := offset,
             data := .memberVariable (if fd.isBitField then fd.bitWidthValue else 0)
               (TranslateToComplexType fd.type) fd.typeNameStr fd.name }]
      emitted ++ dataMemberFields cfg base_offset d rest (fieldIdx + 1)

/-- Embedding of `ParseContextImpl::AddDataMembers` (RecordImpl.cpp). -/
def AddDataMembers (cfg : ParseConfig) (base_offset : Nat) (d : RecordDeclModel) : List Field :=
  dataMemberFields cfg base_offset d d.fields 0

/-- Embedding of `ParseContextImpl::AddFields` (RecordImpl.cpp): bases,
then data members, then virtual bases. -/
def AddFields (cfg : ParseConfig) (base_offset : Nat) (d : RecordDeclModel) : List Field :=
  AddBases cfg base_offset d ++ AddDataMembers cfg base_offset d
    ++ AddVirtualBases cfg base_offset d

/-! ## ParseVTable entry (RecordImpl.cpp) -/

/-- Embedding of `ParseVTable` (RecordImpl.cpp): null when the vtable
context is not the Itanium one, null for non-dynamic classes, otherwise
the translated canonical layout. `itaniumVTableCtx` models whether
`dyn_cast<clang::ItaniumVTableContext>` succeeds. -/
def ParseVTable (itaniumVTableCtx : Bool) (d : RecordDeclModel) : Option VTable :=
  if !itaniumVTableCtx then none
  else if !d.isDynamicClass then none
  else some { components := parseComponents d.vtableLayout 0 d.vtableLayout.components }

/-! ## Registry and declaration handlers (RecordImpl.cpp) -/

/-- Embedding of `ParseContextImpl::CanProcess`: the gate checks in source
order, then the processed-name lookup; on success the name is inserted.
Returns the verdict together with the updated processed-name set. -/
def CanProcess (g : TagDeclGate) (processed : List String) : Bool × List String :=
  if !g.hasDefinition then (false, processed)
  else if g.isInvalid then (false, processed)
  else if !g.isCompleteDefinition then (false, processed)
  else if g.isTemplated then (false, processed)
  else if processed.contains g.name then (false, processed)
  else (true, g.name :: processed)

/-- The tag-kind switch of `HandleRecordDecl`. -/
def recordKindOf : TagKind → RecordKind
  | .ttkStruct => .recStruct
  | .ttkInterface => .recClass
  | .ttkClass => .recClass
  | .ttkUnion => .recUnion
  | .ttkEnum => .recStruct

/-- Embedding of `ParseContextImpl::HandleRecordDecl` (RecordImpl.cpp):
gate, empty-record inlining check (after the name was inserted), record
construction, field walk, vtable parse for C++ records. -/
def HandleRecordDecl (cfg : ParseConfig) (itaniumVTableCtx : Bool) (st : ParseState)
    (d : RecordDeclModel) : ParseState :=
  match CanProcess d.gate st.processed with
  | (false, p) => { st with processed := p }
  | (true, p) =>
    if ShouldInlineEmptyRecord cfg d.toInfo then { st with processed := p }
    else
      let record : Record :=
        { is_anonymous := d.isAnonymous, kind := recordKindOf d.tagKind,
          name := d.gate.name, size := d.size, data_size := d.dataSize,
          alignment := d.alignment, fields := AddFields cfg 0 d,
          vtable := if d.isCXX then ParseVTable itaniumVTableCtx d else none }
      { result := { st.result with records := st.result.records ++ [record] },
        processed := p }

/-- An enum declaration (already resolved to its definition) with the data
`HandleEnumDecl` reads. -/
structure EnumDeclModel where
  gate : TagDeclGate := {}
  /-- `D->isScoped()`. -/
  isScoped : Bool := false
  /-- `D->getName().empty()`. -/
  nameEmpty : Bool := false
  /-- `D->getIntegerType().getCanonicalType().getAsString(policy)`. -/
  underlyingTypeName : String := ""
  /-- `ctx.getTypeSizeInChars(underlying_type).getQuantity()`. -/
  underlyingTypeSize : Nat := 0
  /-- `(decl->getNameAsString(), stringified init value)` per enumerator,
  in declaration order. -/
  enumerators : List (String × String) := []

/-- Embedding of `ParseContextImpl::HandleEnumDecl` (RecordImpl.cpp). -/
def HandleEnumDecl (st : ParseState) (e : EnumDeclModel) : ParseState :=
  match CanProcess e.gate st.processed with
  | (false, p) => { st with processed := p }
  | (true, p) =>
    let en : Enum :=
      { is_scoped := e.isScoped, is_anonymous := e.nameEmpty, name := e.gate.name,
        underlying_type_name := e.underlyingTypeName,
        underlying_type_size := e.underlyingTypeSize,
        enumerators := e.enumerators }
    { result := { st.result with enums := st.result.enums ++ [en] }, processed := p }

/-! ## Declaration stream and translation unit (Record.cpp) -/

inductive Decl where
  | enum (e : EnumDeclModel)
  | record (r : RecordDeclModel)

/-- Dispatch of the visitor callbacks (`VisitEnumDecl` / `VisitRecordDecl`). -/
def handleDecl (cfg : ParseConfig) (itaniumVTableCtx : Bool) (st : ParseState) :
    Decl → ParseState
  | .enum e => HandleEnumDecl st e
  | .record r => HandleRecordDecl cfg itaniumVTableCtx st r

/-- The fold of the whole declaration stream (`TraverseAST`). -/
def runDecls (cfg : ParseConfig) (itaniumVTableCtx : Bool) (st : ParseState)
    (ds : List Decl) : ParseState :=
  ds.foldl (handleDecl cfg itaniumVTableCtx) st

/-- A translation unit as seen by `ParseRecordConsumer`: the ABI-family
flag, the matching vtable-context flag, and the declaration stream. -/
structure TranslationUnit where
  /-- `Ctx.getTargetInfo().getCXXABI().isItaniumFamily()`. -/
  abiIsItaniumFamily : Bool := true
  /-- Whether `dyn_cast<clang::ItaniumVTableContext>` succeeds (clang
  constructs the Itanium context exactly for the Itanium ABI family). -/
  itaniumVTableCtx : Bool := true
  decls : List Decl := []

/-- Embedding of `ParseRecordConsumer::HandleTranslationUnit`
(Record.cpp): a non-Itanium ABI family records the global error and
returns without traversing the AST. -/
def HandleTranslationUnit (cfg : ParseConfig) (st : ParseState)
    (tu : TranslationUnit) : ParseState :=
  if !tu.abiIsItaniumFamily then
    { st with result := { st.result with error := "only the Itanium C++ ABI is supported" } }
  else runDecls cfg tu.itaniumVTableCtx st tu.decls

/-! ## Projection helpers used by the claim statements -/

/-- The name carried by a field's payload (member or base name; empty for
the vtable pointer). -/
def fieldName (f : Field) : String :=
  match f.data with
  | .memberVariable _ _ _ n => n
  | .base _ _ n => n
  | .vtablePointer => ""

/-- Whether a field is a non-virtual Base entry. -/
def isNVBaseField (f : Field) : Bool :=
  match f.data with
  | .base _ false _ => true
  | _ => false

/-- Whether a field is a virtual Base entry. -/
def isVBaseField (f : Field) : Bool :=
  match f.data with
  | .base _ true _ => true
  | _ => false

/-- Whether a field is a MemberVariable entry. -/
def isMemberField (f : Field) : Bool :=
  match f.data with
  | .memberVariable _ _ _ _ => true
  | _ => false

/-- Offsets of two fields are in ascending order. -/
def offsetLE (f g : Field) : Prop := f.offset ≤ g.offset

/-- The byte offsets of a record's field list. -/
def recordFieldOffsets (r : Record) : List Nat := r.fields.map Field.offset

/-- The number of components of a parsed vtable. -/
def vtLength (vt : VTable) : Nat := vt.components.length

/-! ## Concrete inputs used by witnesses and counterexamples -/

/-- Inlining disabled (the default configuration). -/
def cfgOff : ParseConfig := {}

/-- Inlining enabled (`-i`). -/
def cfgOn : ParseConfig := { inline_empty_structs := true }

/-- `struct Empty {};` — data size reported as 1, no vtable, no bases, no
virtual bases, no direct fields. -/
def emptyDecl : RecordDeclModel :=
  { gate := { name := "Empty" }, size := 1, dataSize := 1, alignment := 1 }

/-- `struct Derived : Empty { int x; };` — one non-virtual base `Empty` at
offset 0 and one int member at bit offset 0. -/
def derivedDecl : RecordDeclModel :=
  { gate := { name := "Derived" }, size := 4, dataSize := 4, alignment := 4,
    bases := [{ info := { name := "Empty", dataSize := 1 }, offset := 0 }],
    fields := [{ name := "x", type := .leaf "int" false false, typeNameStr := "int" }],
    fieldOffsetsBits := [0] }

/-- The Record the extractor produces for `Derived` under inlining. -/
def expectedDerived : Record :=
  { kind := .recStruct, name := "Derived", size := 4, data_size := 4, alignment := 4,
    fields := [{ offset := 0,
                 data := .memberVariable 0 (.typeName "int" false false) "int" "x" }] }

/-- `enum class Color : unsigned char \x7b Red = 0, Green = 1 \x7d;`. -/
def colorEnumDecl : EnumDeclModel :=
  { gate := { name := "Color" }, isScoped := true, underlyingTypeName := "unsigned char",
    underlyingTypeSize := 1, enumerators := [("Red", "0"), ("Green", "1")] }

/-- `struct S \x7b int : 8; int a; \x7d;` — an unnamed 8-bit bitfield at bit 0
followed by a named int member at bit 32 (byte 4). -/
def c3Decl : RecordDeclModel :=
  { gate := { name := "S" }, size := 8, dataSize := 8, alignment := 4,
    fields := [{ isUnnamedBitfield := true, isBitField := true, bitWidthValue := 8,
                 type := .leaf "int" false false, typeNameStr := "int" },
               { name := "a", type := .leaf "int" false false, typeNameStr := "int" }],
    fieldOffsetsBits := [0, 32] }

/-- `struct B \x7b unsigned a : 4; unsigned b : 4; \x7d;` — two named bitfields
packed into the same byte (bit offsets 0 and 4). -/
def c9Decl : RecordDeclModel :=
  { gate := { name := "B" }, size := 4, dataSize := 1, alignment := 4,
    fields := [{ name := "a", isBitField := true, bitWidthValue := 4,
                 type := .leaf "unsigned int" false false, typeNameStr := "unsigned int" },
               { name := "b", isBitField := true, bitWidthValue := 4,
                 type := .leaf "unsigned int" false false, typeNameStr := "unsigned int" }],
    fieldOffsetsBits := [0, 4] }

/-- A translation unit under a non-Itanium (Microsoft-family) C++ ABI,
whose stream holds one processable enum and one processable record. -/
def tuMicrosoft : TranslationUnit :=
  { abiIsItaniumFamily := false, itaniumVTableCtx := false,
    decls := [.enum colorEnumDecl, .record derivedDecl] }

/-- The same stream under the supported Itanium ABI. -/
def tuItanium : TranslationUnit :=
  { decls := [.enum colorEnumDecl, .record derivedDecl] }

/-! ## C8 -/

/-- C8: for every complete non-dependent type T, Flatten(T*) equals
Pointer(Flatten(T)), and Flatten(T&) equals Flatten(T*): references fold
into the same structural form as raw pointers. -/
theorem c8_flatten_pointer_ref (t : CType) :
    TranslateToComplexType (CType.ptr t) = ComplexType.pointer (TranslateToComplexType t) ∧
    TranslateToComplexType (CType.ref t) = TranslateToComplexType (CType.ptr t) :=
  ⟨rfl, rfl⟩

/-! ## C3 -/

/-- C3: the claim that each named member's byte offset is baseOffset plus
its own layout offset fails on the code for a named member declared after
an unnamed bitfield: `AddDataMembers` indexes `layout.getFieldOffset` with
a counter that skips unnamed bitfields, so in `struct S \x7b int : 8; int a;
\x7d` the member `a` is emitted at byte offset 0 (the unnamed bitfield's
offset) although its own layout offset is bit 32, i.e. byte 4. -/
theorem c3_member_offset_bug :
    (AddDataMembers cfgOff 0 c3Decl).map Field.offset = [0] ∧
    (AddDataMembers cfgOff 0 c3Decl).map fieldName = ["a"] ∧
    c3Decl.fieldOffsetsBits.getD 1 0 / 8 = 4 :=
  ⟨rfl, rfl, rfl⟩

/-! ## C9: counterexample -/

/-- C9 counterexample: a non-union record with two bitfields packed into
one byte yields two fields sharing byte offset 0, so "non-union
same-offset fields never occur" is false as stated. -/
theorem c9_counterexample :
    (HandleRecordDecl cfgOff true {} c9Decl).result.records.map Record.kind =
      [RecordKind.recStruct] ∧
    (HandleRecordDecl cfgOff true {} c9Decl).result.records.map recordFieldOffsets = [[0, 0]] :=
  ⟨rfl, rfl⟩

/-! ## C1: counterexample -/

/-- C1 counterexample: running Scenario 2 with inlining ON, the record
list holds only "Derived" — the empty record is *not* emitted as its own
standalone Record entry, contradicting the claim. -/
theorem c1_counterexample :
    ((runDecls cfgOn true {} [.record emptyDecl, .record derivedDecl]).result.records.map
      Record.name).contains "Empty" = false ∧
    (runDecls cfgOn true {} [.record emptyDecl, .record derivedDecl]).result.records.map
      Record.name = ["Derived"] :=
  ⟨rfl, rfl⟩

/-! ## C2: counterexample -/

/-- C2 counterexample: under a non-Itanium ABI family the consumer records
the global error and returns without traversing the stream, so the enum
and record that would be emitted under the Itanium ABI (same stream) are
not emitted at all — extraction does not continue. -/
theorem c2_counterexample :
    (HandleTranslationUnit cfgOff {} tuMicrosoft).result.error =
      "only the Itanium C++ ABI is supported" ∧
    (HandleTranslationUnit cfgOff {} tuMicrosoft).result.enums.length = 0 ∧
    (HandleTranslationUnit cfgOff {} tuMicrosoft).result.records.length = 0 ∧
    (HandleTranslationUnit cfgOff {} tuItanium).result.enums.length = 1 ∧
    (HandleTranslationUnit cfgOff {} tuItanium).result.records.length = 1 :=
  ⟨rfl, rfl, rfl, rfl, rfl⟩

/-! ## C1: amended claim -/

/-- Whether the base-walk loops keep a base: exactly the bases not
satisfying the empty-record inlining policy survive. -/
def keepsBase (cfg : ParseConfig) (b : BaseSpec) : Bool :=
  !ShouldInlineEmptyRecord cfg b.info

/-- Whether the member walk of a *non-union* record keeps a declared
field: not an unnamed bitfield, and not a member of inlined-empty record
type. -/
def keepsMember (cfg : ParseConfig) (fd : FieldDeclModel) : Bool :=
  !fd.isUnnamedBitfield &&
    (match fd.asRecord with
     | some info => !ShouldInlineEmptyRecord cfg info
     | none => true)

/-- The name of the record a base specifier refers to. -/
def baseSpecName (b : BaseSpec) : String := b.info.name

/-- The non-virtual direct bases of a record declaration, in declaration
order (the collection loop of `AddBases`). -/
def nonVirtualBases (d : RecordDeclModel) : List BaseSpec :=
  d.bases.filter (fun b => !b.isVirtual)

/-- The skip-empty-bases loops of `AddBases`/`AddVirtualBases` emit one
field per policy-false base, in order: the emitted names are exactly the
names of the bases kept by `keepsBase`. -/
lemma names_of_ite_filterMap (cfg : ParseConfig) (F : BaseSpec → Field)
    (hF : ∀ b, fieldName (F b) = baseSpecName b) :
    ∀ l : List BaseSpec,
      (l.filterMap
        (fun b => if ShouldInlineEmptyRecord cfg b.info then none else some (F b))).map
          fieldName =
        (l.filter (keepsBase cfg)).map baseSpecName := by
  intro l
  induction l with
  | nil => rfl
  | cons b bs ih =>
    rw [List.filterMap_cons, List.filter_cons]
    by_cases hskip : ShouldInlineEmptyRecord cfg b.info
    · have hkeep : keepsBase cfg b = false := by simp [keepsBase, hskip]
      rw [if_pos hskip, hkeep]
      simpa using ih
    · have hkeep : keepsBase cfg b = true := by simp [keepsBase, hskip]
      rw [if_neg hskip, hkeep]
      simp only [if_true, List.map_cons, hF b]
      rw [ih]

/-- For any container record, the emitted non-virtual Base entries are
exactly the policy-false non-virtual bases, in ascending-offset order. -/
lemma nvBaseFields_names (cfg : ParseConfig) (off : Nat) (d : RecordDeclModel)
    (hcxx : d.isCXX = true) :
    (NVBaseFields cfg off d).map fieldName =
      ((stableSortByKey BaseSpec.offset (nonVirtualBases d)).filter (keepsBase cfg)).map
        baseSpecName := by
  unfold NVBaseFields
  simp only [hcxx, Bool.not_true, Bool.false_eq_true, if_false]
  exact names_of_ite_filterMap cfg
    (fun b => { offset := off + b.offset,
                data := .base (d.primaryBase == some b.info.name) false b.info.name })
    (fun b => rfl) _

/-- For any container record, the emitted virtual Base entries are
exactly the policy-false virtual bases, in ascending-offset order. -/
lemma vBaseFields_names (cfg : ParseConfig) (off : Nat) (d : RecordDeclModel)
    (hcxx : d.isCXX = true) :
    (AddVirtualBases cfg off d).map fieldName =
      ((stableSortByKey BaseSpec.offset d.vbases).filter (keepsBase cfg)).map
        baseSpecName := by
  unfold AddVirtualBases
  simp only [hcxx, Bool.not_true, Bool.false_eq_true, if_false]
  exact names_of_ite_filterMap cfg
    (fun b => { offset := off + b.offset,
                data := .base (d.primaryBase == some b.info.name) true b.info.name })
    (fun b => rfl) _

/-- For a non-union container, the emitted member names are exactly the
declared fields kept by `keepsMember` (unnamed bitfields and
inlined-empty record members dropped), in declaration order. -/
lemma dataMemberFields_names (cfg : ParseConfig) (off : Nat) (d : RecordDeclModel)
    (hU : d.tagKind ≠ TagKind.ttkUnion) :
    ∀ (fs : List FieldDeclModel) (idx : Nat),
      (dataMemberFields cfg off d fs idx).map fieldName =
        (fs.filter (keepsMember cfg)).map FieldDeclModel.name := by
  have hbeq : (d.tagKind == TagKind.ttkUnion) = false := by simp [hU]
  intro fs
  induction fs with
  | nil => intro idx; rfl
  | cons fd rest ih =>
    intro idx
    unfold dataMemberFields
    rw [List.filter_cons]
    by_cases hu : fd.isUnnamedBitfield
    · have hkeep : keepsMember cfg fd = false := by simp [keepsMember, hu]
      rw [if_pos hu]
      simp [hkeep, ih idx]
    · rw [if_neg hu]
      cases har : fd.asRecord with
      | none =>
        have hkeep : keepsMember cfg fd = true := by simp [keepsMember, hu, har]
        simp [hkeep, ih (idx + 1), fieldName]
      | some info =>
        by_cases hskip : ShouldInlineEmptyRecord cfg info
        · have hkeep : keepsMember cfg fd = false := by simp [keepsMember, hu, har, hskip]
          have hcond : (d.tagKind == TagKind.ttkUnion || !ShouldInlineEmptyRecord cfg info)
              = false := by simp [hbeq, hskip]
          simp [hkeep, hcond, ih (idx + 1)]
        · have hkeep : keepsMember cfg fd = true := by simp [keepsMember, hu, har, hskip]
          have hcond : (d.tagKind == TagKind.ttkUnion || !ShouldInlineEmptyRecord cfg info)
              = true := by simp [hskip]
          simp [hkeep, hcond, ih (idx + 1), fieldName]

/-- C1 (amended): with empty-struct inlining enabled, a record satisfying
the empty-record policy is not emitted as its own standalone Record entry
(handling it leaves the accumulated result unchanged), and it is omitted
from containing records: for every container, the emitted Base entries
(non-virtual and virtual) are exactly the policy-false bases, and for
every non-union container the emitted member names are exactly the
declared fields that are neither unnamed bitfields nor members of
inlined-empty record type — union containers keep empty-record members.
For Scenario 2 the result holds exactly one Record, "Derived", with one
field (MemberVariable x at offset 0) and no Base entry for Empty. -/
theorem c1_empty_record_inlining (cfg : ParseConfig) (it : Bool) (st : ParseState)
    (e d : RecordDeclModel) (off : Nat)
    (hpol : ShouldInlineEmptyRecord cfg e.toInfo = true) :
    (HandleRecordDecl cfg it st e).result = st.result ∧
    (d.isCXX = true →
      (NVBaseFields cfg off d).map fieldName =
        ((stableSortByKey BaseSpec.offset (nonVirtualBases d)).filter (keepsBase cfg)).map
          baseSpecName) ∧
    (d.isCXX = true →
      (AddVirtualBases cfg off d).map fieldName =
        ((stableSortByKey BaseSpec.offset d.vbases).filter (keepsBase cfg)).map
          baseSpecName) ∧
    (d.tagKind ≠ TagKind.ttkUnion →
      (AddDataMembers cfg off d).map fieldName =
        (d.fields.filter (keepsMember cfg)).map FieldDeclModel.name) ∧
    (runDecls cfgOn true {} [.record emptyDecl, .record derivedDecl]).result.records =
      [expectedDerived] := by
  refine ⟨?_, nvBaseFields_names cfg off d, vBaseFields_names cfg off d,
    fun hU => dataMemberFields_names cfg off d hU d.fields 0, rfl⟩
  unfold HandleRecordDecl
  rcases hcp : CanProcess e.gate st.processed with ⟨verdict, p⟩
  cases verdict
  · rfl
  · simp only [hpol, if_true]

/-- C1 witness: the amended theorem applied to the Scenario 2 empty
record and its container `Derived` (whose only base, Empty, is dropped:
the emitted base names are empty while the kept member names are
exactly ["x"]). -/
theorem c1_empty_record_inlining_witness :
    ShouldInlineEmptyRecord cfgOn emptyDecl.toInfo = true ∧
    (HandleRecordDecl cfgOn true {} emptyDecl).result = ({} : ParseState).result ∧
    derivedDecl.isCXX = true ∧
    (NVBaseFields cfgOn 0 derivedDecl).map fieldName =
      ((stableSortByKey BaseSpec.offset (nonVirtualBases derivedDecl)).filter
        (keepsBase cfgOn)).map baseSpecName ∧
    derivedDecl.tagKind ≠ TagKind.ttkUnion ∧
    (AddDataMembers cfgOn 0 derivedDecl).map fieldName =
      (derivedDecl.fields.filter (keepsMember cfgOn)).map FieldDeclModel.name ∧
    (runDecls cfgOn true {} [.record emptyDecl, .record derivedDecl]).result.records =
      [expectedDerived] := by
  have h := c1_empty_record_inlining cfgOn true {} emptyDecl derivedDecl 0 rfl
  exact ⟨rfl, h.1, rfl, h.2.1 rfl, by decide, h.2.2.2.1 (by decide), h.2.2.2.2⟩

/-! ## C2: amended claim -/

/-- C2 (amended): under an unsupported (non-Itanium) C++ ABI family,
exactly one global error is recorded on the result and the translation
unit is not traversed at all — the enums and records of the stream are
left exactly as they were, nothing further is emitted; independently,
ParseVTable under a non-Itanium vtable context yields a null vtable for
every class. -/
theorem c2_unsupported_abi (cfg : ParseConfig) (st : ParseState) (tu : TranslationUnit)
    (habi : tu.abiIsItaniumFamily = false) :
    (HandleTranslationUnit cfg st tu).result.error =
      "only the Itanium C++ ABI is supported" ∧
    (HandleTranslationUnit cfg st tu).result.enums = st.result.enums ∧
    (HandleTranslationUnit cfg st tu).result.records = st.result.records ∧
    ∀ d : RecordDeclModel, ParseVTable false d = none := by
  unfold HandleTranslationUnit
  rw [habi]
  exact ⟨rfl, rfl, rfl, fun d => rfl⟩

/-- C2 witness: the amended theorem applied to the Microsoft-ABI
translation unit. -/
theorem c2_unsupported_abi_witness :
    tuMicrosoft.abiIsItaniumFamily = false ∧
    (HandleTranslationUnit cfgOff {} tuMicrosoft).result.error =
      "only the Itanium C++ ABI is supported" ∧
    (HandleTranslationUnit cfgOff {} tuMicrosoft).result.records =
      ({} : ParseState).result.records ∧
    ParseVTable false derivedDecl = none := by
  have h := c2_unsupported_abi cfgOff {} tuMicrosoft rfl
  exact ⟨rfl, h.1, h.2.2.1, h.2.2.2 derivedDecl⟩

/-! ## C5: vtable projection is a 1:1, order-preserving map -/

lemma parseComponents_length (L : VTableOracle) :
    ∀ (cs : List CK) (idx : Nat), (parseComponents L idx cs).length = cs.length := by
  intro cs
  induction cs with
  | nil => intro idx; rfl
  | cons c rest ih =>
    intro idx
    simp only [parseComponents, List.length_cons, ih]

lemma parseComponents_getD (L : VTableOracle) :
    ∀ (cs : List CK) (idx i : Nat), i < cs.length →
      (parseComponents L idx cs).getD i (.offsetToTop 0) =
        translateComponent L (idx + i) (cs.getD i (.offsetToTop 0)) := by
  intro cs
  induction cs with
  | nil => intro idx i h; exact absurd h (Nat.not_lt_zero i)
  | cons c rest ih =>
    intro idx i h
    cases i with
    | zero => simp [parseComponents]
    | succ j =>
      have hj : j < rest.length := Nat.lt_of_succ_lt_succ h
      have := ih (idx + 1) j hj
      simpa [parseComponents, Nat.add_assoc, Nat.add_comm 1 j] using this

/-- Scenario 3 virtual method: `virtual void f();` on class `A`. -/
def funcF : FuncDeclModel :=
  { name := "f", prettyName := "void A::f()",
    type := .functionProto [] (.leaf "void" false false) }

/-- Scenario 3 canonical layout for `class A \x7b virtual void f(); \x7d`:
offset-to-top, RTTI, one function pointer; no thunks. -/
def scenario3Layout : VTableOracle :=
  { components := [.offsetToTop 0, .rtti "A", .functionPointer funcF] }

/-- Scenario 3 dynamic class `A`. -/
def scenario3Decl : RecordDeclModel :=
  { gate := { name := "A" }, tagKind := .ttkClass, size := 8, dataSize := 8,
    alignment := 8, isDynamicClass := true, vtableLayout := scenario3Layout }

/-- C5: for every dynamic class whose vtable is built (Itanium vtable
context), the produced component sequence has exactly the oracle's length,
and the component at every index is exactly the translation of the
oracle's component at the same index — never reordered or filtered, with
repeated entries necessarily preserved; unused function-pointer slots fold
into ordinary FunctionPointer entries. -/
theorem c5_vtable_projection (d : RecordDeclModel) (hdyn : d.isDynamicClass = true) :
    ∃ vt, ParseVTable true d = some vt ∧
      vt.components.length = d.vtableLayout.components.length ∧
      (∀ i, i < d.vtableLayout.components.length →
        vt.components.getD i (.offsetToTop 0) =
          translateComponent d.vtableLayout i
            (d.vtableLayout.components.getD i (.offsetToTop 0))) ∧
      (∀ i f, i < d.vtableLayout.components.length →
        d.vtableLayout.components.getD i (.offsetToTop 0) = CK.unusedFunctionPointer f →
        vt.components.getD i (.offsetToTop 0) =
          .functionPointer (mkFunctionPointerEntry d.vtableLayout i false false f)) := by
  refine ⟨{ components := parseComponents d.vtableLayout 0 d.vtableLayout.components }, ?_, ?_, ?_, ?_⟩
  · unfold ParseVTable
    rw [hdyn]
    rfl
  · exact parseComponents_length d.vtableLayout d.vtableLayout.components 0
  · intro i hi
    simpa using parseComponents_getD d.vtableLayout d.vtableLayout.components 0 i hi
  · intro i f hi hunused
    have h := parseComponents_getD d.vtableLayout d.vtableLayout.components 0 i hi
    rw [hunused] at h
    simpa [translateComponent] using h

/-- C5 witness: the theorem applied to the Scenario 3 dynamic class. -/
theorem c5_vtable_projection_witness :
    scenario3Decl.isDynamicClass = true ∧
    (ParseVTable true scenario3Decl).map vtLength = some 3 := by
  obtain ⟨vt, hvt, hlen, -, -⟩ := c5_vtable_projection scenario3Decl rfl
  refine ⟨rfl, ?_⟩
  rw [hvt]
  show some (vtLength vt) = some 3
  rw [vtLength, hlen]
  rfl

/-! ## C6: thunk attribution -/

/-- The sortedness clang guarantees for `vtable_thunks()`: component
indices strictly ascending (so `llvm::lower_bound` is meaningful). -/
def strictAscThunkKeys : List (Nat × ThunkInfo) → Bool
  | [] => true
  | [_] => true
  | a :: b :: rest => decide (a.1 < b.1) && strictAscThunkKeys (b :: rest)

lemma strictAsc_tail {a : Nat × ThunkInfo} {l : List (Nat × ThunkInfo)}
    (h : strictAscThunkKeys (a :: l) = true) : strictAscThunkKeys l = true := by
  cases l with
  | nil => rfl
  | cons b rest =>
    have := (Bool.and_eq_true _ _).mp h
    exact this.2

lemma strictAsc_head_lt {a : Nat × ThunkInfo} {l : List (Nat × ThunkInfo)}
    (h : strictAscThunkKeys (a :: l) = true) :
    ∀ b ∈ l, a.1 < b.1 := by
  induction l generalizing a with
  | nil => intro b hb; exact absurd hb (List.not_mem_nil b)
  | cons c rest ih =>
    intro b hb
    have hpair := (Bool.and_eq_true _ _).mp h
    have hac : a.1 < c.1 := of_decide_eq_true hpair.1
    rcases List.mem_cons.mp hb with hbc | hbr
    · rw [hbc]; exact hac
    · exact Nat.lt_trans hac (ih hpair.2 b hbr)

lemma getThunkInfo_cons_ge {a : Nat × ThunkInfo} {rest : List (Nat × ThunkInfo)} {idx : Nat}
    (h : ¬ a.1 < idx) :
    GetThunkInfo (a :: rest) idx = if a.1 = idx then some a.2 else none := by
  simp [GetThunkInfo, lowerBoundThunk, List.find?_cons, h]

lemma getThunkInfo_cons_lt {a : Nat × ThunkInfo} {rest : List (Nat × ThunkInfo)} {idx : Nat}
    (h : a.1 < idx) :
    GetThunkInfo (a :: rest) idx = GetThunkInfo rest idx := by
  simp [GetThunkInfo, lowerBoundThunk, List.find?_cons, h]

/-- On a strictly-ascending thunk table, `GetThunkInfo` finds exactly the
entries of the table. -/
lemma getThunkInfo_eq_some_iff {l : List (Nat × ThunkInfo)} (hs : strictAscThunkKeys l = true)
    (idx : Nat) (t : ThunkInfo) :
    GetThunkInfo l idx = some t ↔ (idx, t) ∈ l := by
  induction l with
  | nil =>
    simp [GetThunkInfo, lowerBoundThunk]
  | cons a rest ih =>
    constructor
    · intro h
      by_cases hlt : a.1 < idx
      · rw [getThunkInfo_cons_lt hlt] at h
        exact List.mem_cons_of_mem a ((ih (strictAsc_tail hs)).mp h)
      · rw [getThunkInfo_cons_ge hlt] at h
        by_cases heq : a.1 = idx
        · rw [if_pos heq] at h
          have ht : a.2 = t := Option.some.inj h
          have : a = (idx, t) := by
            cases a
            simp_all
          rw [this]
          exact List.mem_cons_self _ _
        · rw [if_neg heq] at h
          exact absurd h (by simp)
    · intro hmem
      rcases List.mem_cons.mp hmem with hhead | hrest
      · have hidx : a.1 = idx := by rw [← hhead]
        rw [getThunkInfo_cons_ge (by rw [hidx]; exact Nat.lt_irrefl idx)]
        rw [if_pos hidx, ← hhead]
      · have hlt : a.1 < idx := strictAsc_head_lt hs (idx, t) hrest
        rw [getThunkInfo_cons_lt hlt]
        exact (ih (strictAsc_tail hs)).mpr hrest

/-- On a strictly-ascending thunk table, a `some` result of `GetThunkInfo`
always exists once a matching entry is in the table, and conversely. -/
lemma getThunkInfo_none_iff {l : List (Nat × ThunkInfo)} (hs : strictAscThunkKeys l = true)
    (idx : Nat) :
    GetThunkInfo l idx = none ↔ ∀ t, (idx, t) ∉ l := by
  constructor
  · intro h t hmem
    have := (getThunkInfo_eq_some_iff hs idx t).mpr hmem
    rw [h] at this
    exact absurd this (by simp)
  · intro h
    cases hg : GetThunkInfo l idx with
    | none => rfl
    | some t =>
      have := (getThunkInfo_eq_some_iff hs idx t).mp hg
      exact absurd this (h t)

/-- C6: a vtable function-pointer entry has is_thunk = true iff its
component index appears in the (strictly ascending) oracle thunk table
with a non-empty adjustment; and when it is a thunk, only the adjustment
pairs present in the source thunk are populated: an empty return
adjustment leaves both return fields 0 (likewise for the this
adjustment), a non-empty one copies both of its values. -/
theorem c6_thunk_attribution (L : VTableOracle) (idx : Nat) (isC isD : Bool)
    (f : FuncDeclModel) (hs : strictAscThunkKeys L.thunks = true) :
    ((mkFunctionPointerEntry L idx isC isD f).is_thunk = true ↔
      ∃ t, (idx, t) ∈ L.thunks ∧ t.isEmptyThunk = false) ∧
    (∀ t, (idx, t) ∈ L.thunks → t.isEmptyThunk = false →
      ((t.retAdj.isEmptyAdj = true →
          (mkFunctionPointerEntry L idx isC isD f).return_adjustment = 0 ∧
          (mkFunctionPointerEntry L idx isC isD f).return_adjustment_vbase_offset_offset = 0) ∧
       (t.retAdj.isEmptyAdj = false →
          (mkFunctionPointerEntry L idx isC isD f).return_adjustment = t.retAdj.nonVirtual ∧
          (mkFunctionPointerEntry L idx isC isD f).return_adjustment_vbase_offset_offset =
            t.retAdj.vbaseOffsetOffset) ∧
       (t.thisAdj.isEmptyAdj = true →
          (mkFunctionPointerEntry L idx isC isD f).this_adjustment = 0 ∧
          (mkFunctionPointerEntry L idx isC isD f).this_adjustment_vcall_offset_offset = 0) ∧
       (t.thisAdj.isEmptyAdj = false →
          (mkFunctionPointerEntry L idx isC isD f).this_adjustment = t.thisAdj.nonVirtual ∧
          (mkFunctionPointerEntry L idx isC isD f).this_adjustment_vcall_offset_offset =
            t.thisAdj.vcallOffsetOffset))) := by
  constructor
  · cases hG : GetThunkInfo L.thunks idx with
    | none =>
      constructor
      · intro h
        exact absurd h (by simp [mkFunctionPointerEntry, hG])
      · rintro ⟨t, hmem, hne⟩
        have := (getThunkInfo_eq_some_iff hs idx t).mpr hmem
        rw [hG] at this
        exact absurd this (by simp)
    | some t =>
      cases hE : t.isEmptyThunk with
      | true =>
        constructor
        · intro h
          exact absurd h (by simp [mkFunctionPointerEntry, hG, hE])
        · rintro ⟨u, hmem, hne⟩
          have := (getThunkInfo_eq_some_iff hs idx u).mpr hmem
          rw [hG] at this
          have hut : u = t := Option.some.inj this.symm
          rw [hut] at hne
          rw [hE] at hne
          exact absurd hne (by simp)
      | false =>
        constructor
        · intro _
          refine ⟨t, (getThunkInfo_eq_some_iff hs idx t).mp hG, hE⟩
        · intro _
          cases hRet : t.retAdj.isEmptyAdj <;> cases hThis : t.thisAdj.isEmptyAdj <;>
            simp [mkFunctionPointerEntry, hG, hE, hRet, hThis]
  · intro t hmem hne
    have hG : GetThunkInfo L.thunks idx = some t := (getThunkInfo_eq_some_iff hs idx t).mpr hmem
    refine ⟨?_, ?_, ?_, ?_⟩ <;> intro hA <;>
      cases hRet : t.retAdj.isEmptyAdj <;> cases hThis : t.thisAdj.isEmptyAdj <;>
        first
        | exact absurd (hA.symm.trans hRet) (by decide)
        | exact absurd (hA.symm.trans hThis) (by decide)
        | (simp [ThunkInfo.isEmptyThunk, hRet, hThis] at hne; done)
        | (constructor <;> simp [mkFunctionPointerEntry, hG, hne, hRet, hThis])

/-- A this-only thunk: non-virtual this adjustment of -8, no virtual part,
no return adjustment. -/
def thunkThisOnly : ThunkInfo := { thisAdj := { nonVirtual := -8 } }

/-- A layout with a single thunked slot at component index 2. -/
def thunkLayout : VTableOracle :=
  { components := [.offsetToTop 0, .rtti "D", .functionPointer funcF],
    thunks := [(2, thunkThisOnly)] }

/-- C6 witness: the theorem applied to a this-only thunk at index 2 of a
concrete layout. -/
theorem c6_thunk_attribution_witness :
    strictAscThunkKeys thunkLayout.thunks = true ∧
    (mkFunctionPointerEntry thunkLayout 2 false false funcF).is_thunk = true ∧
    (mkFunctionPointerEntry thunkLayout 2 false false funcF).return_adjustment = 0 ∧
    (mkFunctionPointerEntry thunkLayout 2 false false funcF).return_adjustment_vbase_offset_offset
      = 0 ∧
    (mkFunctionPointerEntry thunkLayout 2 false false funcF).this_adjustment = -8 ∧
    (mkFunctionPointerEntry thunkLayout 2 false false funcF).this_adjustment_vcall_offset_offset
      = 0 := by
  have h := c6_thunk_attribution thunkLayout 2 false false funcF rfl
  have hmem : ((2 : Nat), thunkThisOnly) ∈ thunkLayout.thunks := List.mem_cons_self _ _
  have hfields := h.2 thunkThisOnly hmem rfl
  refine ⟨rfl, h.1.mpr ⟨thunkThisOnly, hmem, rfl⟩, ?_, ?_, ?_, ?_⟩
  · exact (hfields.1 rfl).1
  · exact (hfields.1 rfl).2
  · exact (hfields.2.2.2 rfl).1
  · exact (hfields.2.2.2 rfl).2

/-! ## C7: the registry makes later visits strict no-ops -/

/-- The gate data of either declaration kind. -/
def declGate : Decl → TagDeclGate
  | .enum e => e.gate
  | .record r => r.gate

/-- The qualified name of a declaration. -/
def declName (d : Decl) : String := (declGate d).name

/-- The checks of `CanProcess` that precede the processed-name lookup:
no definition, invalid, incomplete, uninstantiated template. -/
def gateReject (g : TagDeclGate) : Bool :=
  !g.hasDefinition || g.isInvalid || !g.isCompleteDefinition || g.isTemplated

/-- The three possible outcomes of `CanProcess`: rejected by an intrinsic
gate, rejected as a duplicate name, or accepted with the name inserted. -/
lemma canProcess_spec (g : TagDeclGate) (p : List String) :
    (gateReject g = true ∧ CanProcess g p = (false, p)) ∨
    (gateReject g = false ∧ p.contains g.name = true ∧ CanProcess g p = (false, p)) ∨
    (gateReject g = false ∧ p.contains g.name = false ∧ CanProcess g p = (true, g.name :: p)) := by
  unfold CanProcess gateReject
  by_cases h1 : g.hasDefinition <;> by_cases h2 : g.isInvalid <;>
    by_cases h3 : g.isCompleteDefinition <;> by_cases h4 : g.isTemplated <;>
      by_cases h5 : p.contains g.name <;>
        simp [h1, h2, h3, h4, h5] <;>
          first
          | exact Or.inl (by simpa using h5)
          | exact Or.inr (by simpa using h5)

/-- If `CanProcess` answers false without touching the processed set, the
handler leaves the state untouched. -/
lemma handleDecl_eq_of_canProcess_false (cfg : ParseConfig) (it : Bool) (st : ParseState)
    (d : Decl) (h : CanProcess (declGate d) st.processed = (false, st.processed)) :
    handleDecl cfg it st d = st := by
  cases d with
  | enum e =>
    show HandleEnumDecl st e = st
    unfold HandleEnumDecl
    rw [show e.gate = declGate (.enum e) from rfl, h]
  | record r =>
    show HandleRecordDecl cfg it st r = st
    unfold HandleRecordDecl
    rw [show r.gate = declGate (.record r) from rfl, h]

/-- An intrinsically rejected declaration is a no-op on any state. -/
lemma handleDecl_noop_of_gateReject (cfg : ParseConfig) (it : Bool) (st : ParseState)
    (d : Decl) (h : gateReject (declGate d) = true) :
    handleDecl cfg it st d = st := by
  rcases canProcess_spec (declGate d) st.processed with ⟨-, hcp⟩ | ⟨hg, -, -⟩ | ⟨hg, -, -⟩
  · exact handleDecl_eq_of_canProcess_false cfg it st d hcp
  · rw [h] at hg; exact absurd hg (by simp)
  · rw [h] at hg; exact absurd hg (by simp)

/-- A declaration whose name was already processed is a strict no-op. -/
lemma handleDecl_noop_of_processed (cfg : ParseConfig) (it : Bool) (st : ParseState)
    (d : Decl) (h : declName d ∈ st.processed) :
    handleDecl cfg it st d = st := by
  rcases canProcess_spec (declGate d) st.processed with ⟨-, hcp⟩ | ⟨-, -, hcp⟩ | ⟨-, hc, -⟩
  · exact handleDecl_eq_of_canProcess_false cfg it st d hcp
  · exact handleDecl_eq_of_canProcess_false cfg it st d hcp
  · have : (st.processed.contains (declName d)) = true := by simpa using h
    rw [show (declGate d).name = declName d from rfl] at hc
    rw [this] at hc
    exact absurd hc (by simp)

/-- The processed-name set after a handler step: unchanged, or with the
declaration's name pushed in front. -/
lemma handleDecl_processed_cases (cfg : ParseConfig) (it : Bool) (st : ParseState) (d : Decl) :
    (handleDecl cfg it st d).processed = st.processed ∨
    (handleDecl cfg it st d).processed = declName d :: st.processed := by
  rcases canProcess_spec (declGate d) st.processed with ⟨-, hcp⟩ | ⟨-, -, hcp⟩ | ⟨-, -, hcp⟩
  · left; rw [handleDecl_eq_of_canProcess_false cfg it st d hcp]
  · left; rw [handleDecl_eq_of_canProcess_false cfg it st d hcp]
  · cases d with
    | enum e =>
      right
      show (HandleEnumDecl st e).processed = _
      unfold HandleEnumDecl
      rw [show e.gate = declGate (.enum e) from rfl, hcp]
      rfl
    | record r =>
      right
      show (HandleRecordDecl cfg it st r).processed = _
      unfold HandleRecordDecl
      rw [show r.gate = declGate (.record r) from rfl, hcp]
      by_cases hinl : ShouldInlineEmptyRecord cfg r.toInfo <;> simp [hinl] <;> rfl

/-- Handler steps never remove processed names. -/
lemma handleDecl_processed_mono (cfg : ParseConfig) (it : Bool) (st : ParseState) (d : Decl)
    (x : String) (h : x ∈ st.processed) : x ∈ (handleDecl cfg it st d).processed := by
  rcases handleDecl_processed_cases cfg it st d with hc | hc
  · rw [hc]; exact h
  · rw [hc]; exact List.mem_cons_of_mem _ h

/-- Once a non-rejected declaration has been handled, its name is in the
processed set. -/
lemma handleDecl_name_processed (cfg : ParseConfig) (it : Bool) (st : ParseState) (d : Decl)
    (h : gateReject (declGate d) = false) :
    declName d ∈ (handleDecl cfg it st d).processed := by
  rcases canProcess_spec (declGate d) st.processed with ⟨hg, -⟩ | ⟨-, hc, hcp⟩ | ⟨-, -, hcp⟩
  · rw [h] at hg; exact absurd hg (by simp)
  · rw [handleDecl_eq_of_canProcess_false cfg it st d hcp]
    simpa using hc
  · cases d with
    | enum e =>
      show declName (.enum e) ∈ (HandleEnumDecl st e).processed
      unfold HandleEnumDecl
      rw [show e.gate = declGate (.enum e) from rfl, hcp]
      exact List.mem_cons_self _ _
    | record r =>
      show declName (.record r) ∈ (HandleRecordDecl cfg it st r).processed
      unfold HandleRecordDecl
      rw [show r.gate = declGate (.record r) from rfl, hcp]
      by_cases hinl : ShouldInlineEmptyRecord cfg r.toInfo <;> simp [hinl, declName, declGate]

/-- Processed names persist across a whole run. -/
lemma runDecls_processed_mono (cfg : ParseConfig) (it : Bool) :
    ∀ (ds : List Decl) (st : ParseState) (x : String), x ∈ st.processed →
      x ∈ (runDecls cfg it st ds).processed := by
  intro ds
  induction ds with
  | nil => intro st x h; exact h
  | cons hd tl ih =>
    intro st x h
    exact ih (handleDecl cfg it st hd) x (handleDecl_processed_mono cfg it st hd x h)

/-- After a run, every declaration of the stream is either intrinsically
rejected (on any state) or has its name in the processed set. -/
lemma runDecls_covers (cfg : ParseConfig) (it : Bool) :
    ∀ (ds : List Decl) (st : ParseState) (d : Decl), d ∈ ds →
      gateReject (declGate d) = true ∨ declName d ∈ (runDecls cfg it st ds).processed := by
  intro ds
  induction ds with
  | nil => intro st d h; exact absurd h (List.not_mem_nil d)
  | cons hd tl ih =>
    intro st d h
    rcases List.mem_cons.mp h with rfl | htl
    · cases hg : gateReject (declGate d) with
      | true => exact Or.inl rfl
      | false =>
        refine Or.inr ?_
        have h1 := handleDecl_name_processed cfg it st d hg
        exact runDecls_processed_mono cfg it tl (handleDecl cfg it st d) (declName d) h1
    · exact ih (handleDecl cfg it st hd) d htl

/-- A run over declarations that are all no-ops on a state leaves that
state fixed. -/
lemma runDecls_fixed (cfg : ParseConfig) (it : Bool) :
    ∀ (ds : List Decl) (s : ParseState),
      (∀ d ∈ ds, handleDecl cfg it s d = s) → runDecls cfg it s ds = s := by
  intro ds
  induction ds with
  | nil => intro s _; rfl
  | cons hd tl ih =>
    intro s h
    show runDecls cfg it (handleDecl cfg it s hd) tl = s
    rw [h hd (List.mem_cons_self _ _)]
    exact ih s (fun d hd2 => h d (List.mem_cons_of_mem _ hd2))

/-- C7: the first visit of a qualified name wins and every later visit of
the same name is a strict no-op: if a declaration's name is already in the
processed set, handling it returns the state (result's enums, records and
error included) unchanged; consequently re-running the whole unchanged
stream on top of a finished run changes nothing — the second pass is a
strict no-op and the output is identical. -/
theorem c7_first_visit_wins (cfg : ParseConfig) (it : Bool) :
    (∀ (st : ParseState) (d : Decl), declName d ∈ st.processed →
      handleDecl cfg it st d = st) ∧
    (∀ (st : ParseState) (ds : List Decl),
      runDecls cfg it (runDecls cfg it st ds) ds = runDecls cfg it st ds) := by
  refine ⟨handleDecl_noop_of_processed cfg it, ?_⟩
  intro st ds
  apply runDecls_fixed
  intro d hd
  rcases runDecls_covers cfg it ds st d hd with hg | hmem
  · exact handleDecl_noop_of_gateReject cfg it _ d hg
  · exact handleDecl_noop_of_processed cfg it _ d hmem

/-- C7 witness: a state that already processed "Derived" absorbs a visit
of `derivedDecl`, and re-running the Scenario stream over its own output
is a no-op. -/
theorem c7_first_visit_wins_witness :
    declName (.record derivedDecl) ∈ (ParseState.mk {} ["Derived"]).processed ∧
    handleDecl cfgOff true (ParseState.mk {} ["Derived"]) (.record derivedDecl) =
      ParseState.mk {} ["Derived"] ∧
    runDecls cfgOff true
        (runDecls cfgOff true {} [.enum colorEnumDecl, .record derivedDecl])
        [.enum colorEnumDecl, .record derivedDecl] =
      runDecls cfgOff true {} [.enum colorEnumDecl, .record derivedDecl] := by
  have h := c7_first_visit_wins cfgOff true
  refine ⟨List.mem_cons_self _ _, ?_, ?_⟩
  · exact h.1 (ParseState.mk {} ["Derived"]) (.record derivedDecl) (List.mem_cons_self _ _)
  · exact h.2 {} [.enum colorEnumDecl, .record derivedDecl]

/-! ## C10: an inlined empty record's name is registered and stays
unemittable -/

/-- The record list after a handler step: unchanged, or extended by one
record named after the declaration — and the latter only when the name was
not yet processed. -/
lemma handleDecl_records_cases (cfg : ParseConfig) (it : Bool) (st : ParseState) (d : Decl) :
    (handleDecl cfg it st d).result.records = st.result.records ∨
    (declName d ∉ st.processed ∧
      ∃ r : Record, r.name = declName d ∧
        (handleDecl cfg it st d).result.records = st.result.records ++ [r]) := by
  rcases canProcess_spec (declGate d) st.processed with ⟨-, hcp⟩ | ⟨-, -, hcp⟩ | ⟨-, hc, hcp⟩
  · left; rw [handleDecl_eq_of_canProcess_false cfg it st d hcp]
  · left; rw [handleDecl_eq_of_canProcess_false cfg it st d hcp]
  · have hnotmem : declName d ∉ st.processed := by
      intro hmem
      have : st.processed.contains (declGate d).name = true := by simpa using hmem
      rw [this] at hc
      exact absurd hc (by simp)
    cases d with
    | enum e =>
      left
      show (HandleEnumDecl st e).result.records = _
      unfold HandleEnumDecl
      rw [show e.gate = declGate (.enum e) from rfl, hcp]
    | record r =>
      show _ ∨ (declName (.record r) ∉ st.processed ∧ _)
      by_cases hinl : ShouldInlineEmptyRecord cfg r.toInfo
      · left
        show (HandleRecordDecl cfg it st r).result.records = _
        unfold HandleRecordDecl
        rw [show r.gate = declGate (.record r) from rfl, hcp]
        simp [hinl]
      · right
        refine ⟨hnotmem, ?_⟩
        refine ⟨{ is_anonymous := r.isAnonymous, kind := recordKindOf r.tagKind,
                  name := r.gate.name, size := r.size, data_size := r.dataSize,
                  alignment := r.alignment, fields := AddFields cfg 0 r,
                  vtable := if r.isCXX then ParseVTable it r else none }, rfl, ?_⟩
        show (HandleRecordDecl cfg it st r).result.records = _
        unfold HandleRecordDecl
        rw [show r.gate = declGate (.record r) from rfl, hcp]
        simp [hinl]

/-- A name already in the processed set and absent from the emitted record
names stays absent for the rest of the run. -/
lemma runDecls_records_names (cfg : ParseConfig) (it : Bool) :
    ∀ (ds : List Decl) (st : ParseState) (n : String), n ∈ st.processed →
      n ∉ st.result.records.map Record.name →
      n ∉ (runDecls cfg it st ds).result.records.map Record.name := by
  intro ds
  induction ds with
  | nil => intro st n _ h2; exact h2
  | cons hd tl ih =>
    intro st n h1 h2
    refine ih (handleDecl cfg it st hd) n (handleDecl_processed_mono cfg it st hd n h1) ?_
    rcases handleDecl_records_cases cfg it st hd with hc | ⟨hnm, r, hr, hc⟩
    · rw [hc]; exact h2
    · rw [hc]
      intro hmem
      rw [List.map_append] at hmem
      rcases List.mem_append.mp hmem with hmem | hmem
      · exact h2 hmem
      · have : n = r.name := by simpa using hmem
        rw [this, hr] at h1
        exact hnm h1

/-- C10: with inlining enabled, a visited record satisfying the
empty-record policy leaves the result untouched but its qualified name is
inserted into the processed set before the skip; hence no Record with
that name (absent so far) can ever appear in the result for the rest of
the run. -/
theorem c10_inlined_name_registered (cfg : ParseConfig) (it : Bool) (st : ParseState)
    (d : RecordDeclModel) (hg : gateReject d.gate = false)
    (hpol : ShouldInlineEmptyRecord cfg d.toInfo = true)
    (hfresh : d.gate.name ∉ st.result.records.map Record.name) :
    (HandleRecordDecl cfg it st d).result = st.result ∧
    d.gate.name ∈ (HandleRecordDecl cfg it st d).processed ∧
    ∀ ds : List Decl,
      d.gate.name ∉
        (runDecls cfg it (HandleRecordDecl cfg it st d) ds).result.records.map Record.name := by
  have hstep : HandleRecordDecl cfg it st d = handleDecl cfg it st (.record d) := rfl
  rcases canProcess_spec d.gate st.processed with ⟨hg2, hcp⟩ | ⟨-, hc, hcp⟩ | ⟨-, hc, hcp⟩
  · rw [hg] at hg2; exact absurd hg2 (by simp)
  · have hnoop : handleDecl cfg it st (.record d) = st :=
      handleDecl_eq_of_canProcess_false cfg it st (.record d) hcp
    have hmem : d.gate.name ∈ st.processed := by simpa using hc
    rw [hstep, hnoop]
    exact ⟨rfl, hmem, fun ds => runDecls_records_names cfg it ds st d.gate.name hmem hfresh⟩
  · have hres : HandleRecordDecl cfg it st d =
        { st with processed := d.gate.name :: st.processed } := by
      unfold HandleRecordDecl
      rw [hcp]
      simp [hpol]
    rw [hres]
    refine ⟨rfl, List.mem_cons_self _ _, ?_⟩
    intro ds
    exact runDecls_records_names cfg it ds _ d.gate.name (List.mem_cons_self _ _) hfresh

/-- C10 witness: the theorem applied to the Scenario 2 empty record,
followed by a repeated visit of the same name. -/
theorem c10_inlined_name_registered_witness :
    gateReject emptyDecl.gate = false ∧
    ShouldInlineEmptyRecord cfgOn emptyDecl.toInfo = true ∧
    "Empty" ∉ (({} : ParseState).result.records.map Record.name) ∧
    (HandleRecordDecl cfgOn true {} emptyDecl).result = ({} : ParseState).result ∧
    "Empty" ∈ (HandleRecordDecl cfgOn true {} emptyDecl).processed ∧
    "Empty" ∉
      (runDecls cfgOn true (HandleRecordDecl cfgOn true {} emptyDecl)
        [.record emptyDecl]).result.records.map Record.name := by
  have h := c10_inlined_name_registered cfgOn true {} emptyDecl rfl rfl (by simp)
  exact ⟨rfl, rfl, by simp, h.1, h.2.1, h.2.2 [.record emptyDecl]⟩

/-! ## C4: field order invariant -/

/-- Ascending-key relation for the stable sort. -/
def keyLE (key : α → Nat) (a b : α) : Prop := key a ≤ key b

lemma mem_insertByKey (key : α → Nat) (x : α) :
    ∀ {l : List α} {z : α}, z ∈ insertByKey key x l → z = x ∨ z ∈ l := by
  intro l
  induction l with
  | nil =>
    intro z hz
    rcases List.mem_singleton.mp hz with rfl
    exact Or.inl rfl
  | cons y ys ih =>
    intro z hz
    unfold insertByKey at hz
    by_cases hk : key x < key y
    · rw [if_pos hk] at hz
      rcases List.mem_cons.mp hz with rfl | hz2
      · exact Or.inl rfl
      · exact Or.inr hz2
    · rw [if_neg hk] at hz
      rcases List.mem_cons.mp hz with rfl | hz2
      · exact Or.inr (List.mem_cons_self _ _)
      · rcases ih hz2 with h | h
        · exact Or.inl h
        · exact Or.inr (List.mem_cons_of_mem _ h)

lemma pairwise_insertByKey (key : α → Nat) (x : α) :
    ∀ {l : List α}, l.Pairwise (keyLE key) → (insertByKey key x l).Pairwise (keyLE key) := by
  intro l
  induction l with
  | nil => intro _; exact List.pairwise_singleton _ _
  | cons y ys ih =>
    intro h
    rcases List.pairwise_cons.mp h with ⟨hy, hys⟩
    unfold insertByKey
    by_cases hk : key x < key y
    · rw [if_pos hk]
      refine List.pairwise_cons.mpr ⟨?_, h⟩
      intro b hb
      rcases List.mem_cons.mp hb with rfl | hb2
      · exact Nat.le_of_lt hk
      · exact Nat.le_trans (Nat.le_of_lt hk) (hy b hb2)
    · rw [if_neg hk]
      refine List.pairwise_cons.mpr ⟨?_, ih hys⟩
      intro b hb
      rcases mem_insertByKey key x hb with rfl | hb2
      · exact Nat.le_of_not_lt hk
      · exact hy b hb2

lemma pairwise_stableSortByKey_aux (key : α → Nat) :
    ∀ (l : List α) (acc : List α), acc.Pairwise (keyLE key) →
      (l.foldl (fun acc x => insertByKey key x acc) acc).Pairwise (keyLE key) := by
  intro l
  induction l with
  | nil => intro acc h; exact h
  | cons x xs ih =>
    intro acc h
    exact ih (insertByKey key x acc) (pairwise_insertByKey key x h)

/-- `llvm::stable_sort` by key yields an ascending-key list. -/
lemma pairwise_stableSortByKey (key : α → Nat) (l : List α) :
    (stableSortByKey key l).Pairwise (keyLE key) :=
  pairwise_stableSortByKey_aux key l [] List.Pairwise.nil

/-- Every emitted element of a filterMap satisfies a property implied by
the emitting function. -/
lemma all_filterMap {f : α → Option β} {p : β → Bool}
    (h : ∀ a b, f a = some b → p b = true) :
    ∀ l : List α, ((l.filterMap f).all p) = true := by
  intro l
  induction l with
  | nil => rfl
  | cons a as ih =>
    rw [List.filterMap_cons]
    cases hfa : f a with
    | none => exact ih
    | some b =>
      rw [List.all_cons, h a b hfa, ih]
      rfl

/-- The fields emitted for the sorted non-virtual bases are Base entries,
non-virtual. -/
lemma nvBaseFields_all (cfg : ParseConfig) (off : Nat) (d : RecordDeclModel) :
    (NVBaseFields cfg off d).all isNVBaseField = true := by
  unfold NVBaseFields
  by_cases hcxx : d.isCXX
  · simp only [hcxx, Bool.not_true, Bool.false_eq_true, if_false]
    apply all_filterMap
    intro b fb hfb
    by_cases hskip : ShouldInlineEmptyRecord cfg b.info
    · rw [if_pos hskip] at hfb; exact absurd hfb (by simp)
    · rw [if_neg hskip] at hfb
      have := Option.some.inj hfb
      rw [← this]
      rfl
  · simp [hcxx]

/-- The fields emitted for the sorted virtual bases are Base entries,
virtual. -/
lemma vBaseFields_all (cfg : ParseConfig) (off : Nat) (d : RecordDeclModel) :
    (AddVirtualBases cfg off d).all isVBaseField = true := by
  unfold AddVirtualBases
  by_cases hcxx : d.isCXX
  · simp only [hcxx, Bool.not_true, Bool.false_eq_true, if_false]
    apply all_filterMap
    intro b fb hfb
    by_cases hskip : ShouldInlineEmptyRecord cfg b.info
    · rw [if_pos hskip] at hfb; exact absurd hfb (by simp)
    · rw [if_neg hskip] at hfb
      have := Option.some.inj hfb
      rw [← this]
      rfl
  · simp [hcxx]

/-- Base fields inherit ascending offsets from the ascending-key sorted
base list, since each field's offset is the base offset plus the key. -/
lemma pairwise_offsets_of_sorted_bases (off : Nat)
    (bs : List BaseSpec) (hs : bs.Pairwise (keyLE BaseSpec.offset))
    (mk : BaseSpec → Option Field)
    (hmk : ∀ b f, mk b = some f → f.offset = off + b.offset) :
    (bs.filterMap mk).Pairwise offsetLE := by
  rw [List.pairwise_filterMap]
  refine hs.imp ?_
  intro a b hab
  intro x hx y hy
  have hxo := hmk a x hx
  have hyo := hmk b y hy
  show x.offset ≤ y.offset
  rw [hxo, hyo]
  exact Nat.add_le_add_left hab off

lemma nvBaseFields_sorted (cfg : ParseConfig) (off : Nat) (d : RecordDeclModel) :
    (NVBaseFields cfg off d).Pairwise offsetLE := by
  unfold NVBaseFields
  by_cases hcxx : d.isCXX
  · simp only [hcxx, Bool.not_true, Bool.false_eq_true, if_false]
    apply pairwise_offsets_of_sorted_bases off _
      (pairwise_stableSortByKey BaseSpec.offset _)
    intro b f hf
    by_cases hskip : ShouldInlineEmptyRecord cfg b.info
    · rw [if_pos hskip] at hf; exact absurd hf (by simp)
    · rw [if_neg hskip] at hf
      have := Option.some.inj hf
      rw [← this]
  · simp [hcxx]

lemma vBaseFields_sorted (cfg : ParseConfig) (off : Nat) (d : RecordDeclModel) :
    (AddVirtualBases cfg off d).Pairwise offsetLE := by
  unfold AddVirtualBases
  by_cases hcxx : d.isCXX
  · simp only [hcxx, Bool.not_true, Bool.false_eq_true, if_false]
    apply pairwise_offsets_of_sorted_bases off _
      (pairwise_stableSortByKey BaseSpec.offset _)
    intro b f hf
    by_cases hskip : ShouldInlineEmptyRecord cfg b.info
    · rw [if_pos hskip] at hf; exact absurd hf (by simp)
    · rw [if_neg hskip] at hf
      have := Option.some.inj hf
      rw [← this]
  · simp [hcxx]

/-- Every field emitted by the data-member walk is a MemberVariable. -/
lemma dataMemberFields_all (cfg : ParseConfig) (off : Nat) (d : RecordDeclModel) :
    ∀ (fs : List FieldDeclModel) (idx : Nat),
      (dataMemberFields cfg off d fs idx).all isMemberField = true := by
  intro fs
  induction fs with
  | nil => intro idx; rfl
  | cons fd rest ih =>
    intro idx
    unfold dataMemberFields
    by_cases hu : fd.isUnnamedBitfield
    · rw [if_pos hu]; exact ih idx
    · rw [if_neg hu]
      cases har : fd.asRecord with
      | none => simp [List.all_append, ih (idx + 1), isMemberField]
      | some info =>
        by_cases hkeep : d.tagKind == TagKind.ttkUnion || !ShouldInlineEmptyRecord cfg info <;>
          simp [hkeep, List.all_append, ih (idx + 1), isMemberField]

/-- The names of the emitted data members form a subsequence of the
declared field names (declaration order). -/
lemma dataMemberFields_names_sublist (cfg : ParseConfig) (off : Nat) (d : RecordDeclModel) :
    ∀ (fs : List FieldDeclModel) (idx : Nat),
      List.Sublist ((dataMemberFields cfg off d fs idx).map fieldName)
        (fs.map FieldDeclModel.name) := by
  intro fs
  induction fs with
  | nil => intro idx; exact List.nil_sublist _
  | cons fd rest ih =>
    intro idx
    unfold dataMemberFields
    by_cases hu : fd.isUnnamedBitfield
    · rw [if_pos hu]
      exact (ih idx).cons fd.name
    · rw [if_neg hu]
      cases har : fd.asRecord with
      | none =>
        simp only [List.map_cons, List.map_append]
        exact ((ih (idx + 1)).cons₂ fd.name)
      | some info =>
        by_cases hkeep : d.tagKind == TagKind.ttkUnion || !ShouldInlineEmptyRecord cfg info
        · simp only [hkeep, if_true, List.map_cons, List.map_append]
          exact ((ih (idx + 1)).cons₂ fd.name)
        · simp only [hkeep, Bool.false_eq_true, if_false, List.nil_append, List.map_cons]
          exact (ih (idx + 1)).cons fd.name

/-- C4: the field list of every record decomposes, in order, into the
optional synthetic VTablePointer (present at baseOffset iff the class is
polymorphic and has no primary base), the non-virtual bases with ascending
offsets, the data members in declaration order, and the virtual bases with
ascending offsets. (The well-formedness hypothesis records clang's
invariant that only C++ records can be dynamic.) -/
theorem c4_field_order (cfg : ParseConfig) (off : Nat) (d : RecordDeclModel)
    (hwf : d.isDynamicClass = true → d.isCXX = true) :
    AddFields cfg off d =
      VPtrFields off d ++ NVBaseFields cfg off d ++ AddDataMembers cfg off d
        ++ AddVirtualBases cfg off d ∧
    VPtrFields off d =
      (if d.isDynamicClass && d.primaryBase.isNone then
        [{ offset := off, data := .vtablePointer }] else []) ∧
    (NVBaseFields cfg off d).all isNVBaseField = true ∧
    (NVBaseFields cfg off d).Pairwise offsetLE ∧
    (AddDataMembers cfg off d).all isMemberField = true ∧
    List.Sublist ((AddDataMembers cfg off d).map fieldName) (d.fields.map FieldDeclModel.name) ∧
    (AddVirtualBases cfg off d).all isVBaseField = true ∧
    (AddVirtualBases cfg off d).Pairwise offsetLE := by
  refine ⟨?_, ?_, nvBaseFields_all cfg off d, nvBaseFields_sorted cfg off d,
    dataMemberFields_all cfg off d d.fields 0,
    dataMemberFields_names_sublist cfg off d d.fields 0,
    vBaseFields_all cfg off d, vBaseFields_sorted cfg off d⟩
  · unfold AddFields AddBases
    simp [List.append_assoc]
  · unfold VPtrFields
    by_cases hcxx : d.isCXX
    · simp [hcxx]
    · have hdyn : d.isDynamicClass = false := by
        cases hd : d.isDynamicClass
        · rfl
        · exact absurd (hwf hd) hcxx
      simp [hcxx, hdyn]

/-- A record with two non-virtual bases declared out of offset order plus
one virtual base, a primary base, and one data member (the spec's
suggested shape for checking the field-order invariant). -/
def c4Decl : RecordDeclModel :=
  { gate := { name := "M" }, tagKind := .ttkClass, size := 40, dataSize := 36,
    alignment := 8, isDynamicClass := true, primaryBase := some "B1",
    bases := [{ info := { name := "B2", dataSize := 8, isDynamicClass := true }, offset := 16 },
              { info := { name := "B1", dataSize := 8, isDynamicClass := true }, offset := 0 },
              { isVirtual := true, info := { name := "V", dataSize := 4 }, offset := 32 }],
    vbases := [{ isVirtual := true, info := { name := "V", dataSize := 4 }, offset := 32 }],
    fields := [{ name := "m", type := .leaf "int" false false, typeNameStr := "int" }],
    fieldOffsetsBits := [192] }

/-- C4 witness: the theorem applied to the out-of-order multiple
inheritance example. -/
theorem c4_field_order_witness :
    (c4Decl.isDynamicClass = true → c4Decl.isCXX = true) ∧
    (AddFields cfgOff 0 c4Decl =
      VPtrFields 0 c4Decl ++ NVBaseFields cfgOff 0 c4Decl ++ AddDataMembers cfgOff 0 c4Decl
        ++ AddVirtualBases cfgOff 0 c4Decl ∧
    VPtrFields 0 c4Decl =
      (if c4Decl.isDynamicClass && c4Decl.primaryBase.isNone then
        [{ offset := 0, data := .vtablePointer }] else []) ∧
    (NVBaseFields cfgOff 0 c4Decl).all isNVBaseField = true ∧
    (NVBaseFields cfgOff 0 c4Decl).Pairwise offsetLE ∧
    (AddDataMembers cfgOff 0 c4Decl).all isMemberField = true ∧
    List.Sublist ((AddDataMembers cfgOff 0 c4Decl).map fieldName)
      (c4Decl.fields.map FieldDeclModel.name) ∧
    (AddVirtualBases cfgOff 0 c4Decl).all isVBaseField = true ∧
    (AddVirtualBases cfgOff 0 c4Decl).Pairwise offsetLE) :=
  ⟨fun _ => rfl, c4_field_order cfgOff 0 c4Decl (fun _ => rfl)⟩

/-! ## C9: amended claim — offsets come verbatim from the layout -/

/-- The byte offsets the member walk reads from the layout, mirroring
`dataMemberFields` (same index counter, same skips). -/
def memberSourceOffsets (cfg : ParseConfig) (off : Nat) (d : RecordDeclModel) :
    List FieldDeclModel → Nat → List Nat
  | [], _ => []
  | fd :: rest, idx =>
    if fd.isUnnamedBitfield then memberSourceOffsets cfg off d rest idx
    else
      (match fd.asRecord with
       | some info =>
         if d.tagKind == TagKind.ttkUnion || !ShouldInlineEmptyRecord cfg info then
           [off + d.fieldOffsetsBits.getD idx 0 / 8]
         else []
       | none => [off + d.fieldOffsetsBits.getD idx 0 / 8])
      ++ memberSourceOffsets cfg off d rest (idx + 1)

/-- The layout-derived byte offsets of all items the walker emits, in
emission order: optional vtable pointer, surviving sorted non-virtual
bases, data members, surviving sorted virtual bases. -/
def sourceOffsets (cfg : ParseConfig) (off : Nat) (d : RecordDeclModel) : List Nat :=
  (if !d.isCXX then []
   else if d.isDynamicClass && d.primaryBase.isNone then [off] else [])
  ++ (if !d.isCXX then []
      else
        (stableSortByKey BaseSpec.offset (d.bases.filter (fun b => !b.isVirtual))).filterMap
          (fun b =>
            if ShouldInlineEmptyRecord cfg b.info then none else some (off + b.offset)))
  ++ memberSourceOffsets cfg off d d.fields 0
  ++ (if !d.isCXX then []
      else
        (stableSortByKey BaseSpec.offset d.vbases).filterMap
          (fun b =>
            if ShouldInlineEmptyRecord cfg b.info then none else some (off + b.offset)))

lemma map_offset_filterMap {F : BaseSpec → Option Field} {G : BaseSpec → Option Nat}
    (h : ∀ b, (F b).map Field.offset = G b) (l : List BaseSpec) :
    (l.filterMap F).map Field.offset = l.filterMap G := by
  rw [List.map_filterMap]
  exact List.filterMap_congr (fun b _ => h b)

lemma dataMemberFields_offsets (cfg : ParseConfig) (off : Nat) (d : RecordDeclModel) :
    ∀ (fs : List FieldDeclModel) (idx : Nat),
      (dataMemberFields cfg off d fs idx).map Field.offset =
        memberSourceOffsets cfg off d fs idx := by
  intro fs
  induction fs with
  | nil => intro idx; rfl
  | cons fd rest ih =>
    intro idx
    unfold dataMemberFields memberSourceOffsets
    by_cases hu : fd.isUnnamedBitfield
    · rw [if_pos hu, if_pos hu]
      exact ih idx
    · rw [if_neg hu, if_neg hu]
      rw [List.map_append, ih (idx + 1)]
      cases har : fd.asRecord with
      | none => rfl
      | some info =>
        by_cases hkeep : d.tagKind == TagKind.ttkUnion || !ShouldInlineEmptyRecord cfg info <;>
          simp [hkeep]

lemma vptrFields_offsets (off : Nat) (d : RecordDeclModel) :
    (VPtrFields off d).map Field.offset =
      (if !d.isCXX then []
       else if d.isDynamicClass && d.primaryBase.isNone then [off] else []) := by
  unfold VPtrFields
  by_cases hcxx : d.isCXX <;> by_cases hdp : d.isDynamicClass && d.primaryBase.isNone <;>
    simp [hcxx, hdp]

lemma nvBaseFields_offsets (cfg : ParseConfig) (off : Nat) (d : RecordDeclModel) :
    (NVBaseFields cfg off d).map Field.offset =
      (if !d.isCXX then []
       else
        (stableSortByKey BaseSpec.offset (d.bases.filter (fun b => !b.isVirtual))).filterMap
          (fun b =>
            if ShouldInlineEmptyRecord cfg b.info then none else some (off + b.offset))) := by
  unfold NVBaseFields
  by_cases hcxx : d.isCXX
  · simp only [hcxx, Bool.not_true, Bool.false_eq_true, if_false]
    apply map_offset_filterMap
    intro b
    by_cases hskip : ShouldInlineEmptyRecord cfg b.info <;> simp [hskip]
  · simp [hcxx]

lemma vBaseFields_offsets (cfg : ParseConfig) (off : Nat) (d : RecordDeclModel) :
    (AddVirtualBases cfg off d).map Field.offset =
      (if !d.isCXX then []
       else
        (stableSortByKey BaseSpec.offset d.vbases).filterMap
          (fun b =>
            if ShouldInlineEmptyRecord cfg b.info then none else some (off + b.offset))) := by
  unfold AddVirtualBases
  by_cases hcxx : d.isCXX
  · simp only [hcxx, Bool.not_true, Bool.false_eq_true, if_false]
    apply map_offset_filterMap
    intro b
    by_cases hskip : ShouldInlineEmptyRecord cfg b.info <;> simp [hskip]
  · simp [hcxx]

/-- The extractor copies every field's byte offset from the layout: the
offsets of the walked field list are exactly the layout-derived source
offsets. -/
lemma addFields_offsets (cfg : ParseConfig) (off : Nat) (d : RecordDeclModel) :
    (AddFields cfg off d).map Field.offset = sourceOffsets cfg off d := by
  unfold AddFields AddBases AddDataMembers sourceOffsets
  rw [List.map_append, List.map_append, List.map_append,
    vptrFields_offsets off d, nvBaseFields_offsets cfg off d,
    dataMemberFields_offsets cfg off d d.fields 0, vBaseFields_offsets cfg off d]

/-- C9 (amended): union members may share offset 0, and in a non-union
record two fields can share a byte offset exactly when the layout reports
coinciding offsets (e.g. bitfields packed into one byte): the extractor
never introduces a collision of its own — every field's offset is
baseOffset plus the layout-reported offset of its source item, so if the
layout-derived offsets are pairwise distinct, the record's fields have
pairwise distinct byte offsets. -/
theorem c9_offsets_from_layout (cfg : ParseConfig) (off : Nat) (d : RecordDeclModel)
    (_hkind : recordKindOf d.tagKind ≠ RecordKind.recUnion)
    (hdist : (sourceOffsets cfg off d).Pairwise Ne) :
    (AddFields cfg off d).map Field.offset = sourceOffsets cfg off d ∧
    ((AddFields cfg off d).map Field.offset).Pairwise Ne := by
  refine ⟨addFields_offsets cfg off d, ?_⟩
  rw [addFields_offsets cfg off d]
  exact hdist

/-- `struct P \x7b int a; char b; \x7d;` — ordinary members at distinct
offsets. -/
def c9wDecl : RecordDeclModel :=
  { gate := { name := "P" }, size := 8, dataSize := 5, alignment := 4,
    fields := [{ name := "a", type := .leaf "int" false false, typeNameStr := "int" },
               { name := "b", type := .leaf "char" false false, typeNameStr := "char" }],
    fieldOffsetsBits := [0, 32] }

/-- C9 witness: the amended theorem applied to an ordinary struct with
distinct layout offsets. -/
theorem c9_offsets_from_layout_witness :
    recordKindOf c9wDecl.tagKind ≠ RecordKind.recUnion ∧
    (sourceOffsets cfgOff 0 c9wDecl).Pairwise Ne ∧
    (AddFields cfgOff 0 c9wDecl).map Field.offset = sourceOffsets cfgOff 0 c9wDecl ∧
    ((AddFields cfgOff 0 c9wDecl).map Field.offset).Pairwise Ne := by
  have hkind : recordKindOf c9wDecl.tagKind ≠ RecordKind.recUnion := by decide
  have hdist : (sourceOffsets cfgOff 0 c9wDecl).Pairwise Ne := by
    show ([0, 4] : List Nat).Pairwise Ne
    decide
  have h := c9_offsets_from_layout cfgOff 0 c9wDecl hkind hdist
  exact ⟨hkind, hdist, h.1, h.2⟩

end Classgen
